import Mathlib

/-!
Verification development for the SecureWipe-SIH face-verification backend
(`backend/biometric/app.py`, class `FaceVerificationSystem`).

The Python source is shallowly embedded: numeric vectors are `List ℚ`
(idealizing IEEE floats by exact rationals), grayscale images are row-major
`List (List ℕ)`, distances live in `EReal` (`⊤` models Python's
`float('inf')`), and the stateful workflows (`register_user`, `verify_user`,
`log_verification`) are pure functions from an explicit system state plus an
explicit stream of external inputs (camera frames, detector output,
extractor results) to a result and a new state.
-/

namespace FaceVerif

/-- Production method tag returned by `extract_face_encoding`:
the Python strings 'invalid', 'deep_learning', 'feature_based', 'error'. -/
inductive Method where
  | invalid
  | deep_learning
  | feature_based
  | error
  deriving DecidableEq, Repr

/-- Grayscale image, row major; entries are pixel intensities. -/
abbrev GrayImage := List (List ℕ)

/-- Image height, `image.shape[0]`. -/
def imgHeight (img : GrayImage) : ℕ := img.length

/-- Image width, `image.shape[1]` (rows are assumed rectangular; see
`Rectangular`). -/
def imgWidth (img : GrayImage) : ℕ := (img.headD []).length

/-- Predicate that the row-major list of lists is a genuine 2-D array,
which `numpy` guarantees for the `cv2.cvtColor` output fed to
`extract_lbp_features`. -/
def Rectangular (img : GrayImage) : Prop :=
  ∀ row ∈ img, row.length = imgWidth img

instance (img : GrayImage) : Decidable (Rectangular img) := by
  unfold Rectangular; infer_instance

/-- Pixel access `image[y, x]` (used only at indices already checked to be
in bounds, so the default value is never read in those positions). -/
def pixel (img : GrayImage) (y x : ℤ) : ℕ :=
  (img.getD y.toNat []).getD x.toNat 0

/-- List of zero rationals, modelling `np.zeros(n)`. -/
def zeros (n : ℕ) : List ℚ := List.replicate n 0

/-- Horizontal sampling offsets of the LBP loop for the program's only
parameters `radius=2, points=16`: entry `k` is the value of
`int(j + 2*cos(2*pi*k/16)) - j` for any interior pixel column `j ≥ 2`
(Python `int()` truncation; the argument is nonnegative there, so this is
the floor of `2*cos(2*pi*k/16)`).  Faithfulness to the source's
floating-point trigonometry is proved in `lbpDx_eq_floor`. -/
def lbpDx : ℕ → ℤ := fun k =>
  [2, 1, 1, 0, 0, -1, -2, -2, -2, -2, -2, -1, 0, 0, 1, 1].getD k 0

/-- Vertical sampling offsets: entry `k` is `int(i - 2*sin(2*pi*k/16)) - i`
for any interior pixel row `i ≥ 2`, i.e. the floor of `-2*sin(2*pi*k/16)`.
Proved faithful in `lbpDy_eq_floor`. -/
def lbpDy : ℕ → ℤ :=  fun k =>
  [0, -1, -2, -2, -2, -2, -2, -1, 0, 0, 1, 1, 2, 1, 1, 0].getD k 0

/-- LBP code of the interior pixel `(i, j)`: the inner `for p in
range(points)` loop of `extract_lbp_features` with `radius=2, points=16`.
Bit `k` is OR-ed in when the sampled neighbour is inside the image and its
intensity is `>=` the center intensity; the final `% 256` models the store
into the `np.uint8` array `lbp_image`. -/
def lbpCode (img : GrayImage) (i j : ℕ) : ℕ :=
  ((List.range 16).foldl (fun code k =>
    let x : ℤ := (j : ℤ) + lbpDx k
    let y : ℤ := (i : ℤ) + lbpDy k
    if 0 ≤ x ∧ x < (imgWidth img : ℤ) ∧ 0 ≤ y ∧ y < (imgHeight img : ℤ) then
      code ||| ((if pixel img y x ≥ pixel img i j then 1 else 0) <<< k)
    else code) 0) % 256

/-- Codes of all interior pixels in the source's row-major order: the
flattened `lbp_image` array (`for i in range(2, height-2): for j in
range(2, width-2)`). -/
def lbpInterior (img : GrayImage) : List ℕ :=
  (List.range (imgHeight img - 4)).flatMap (fun a =>
    (List.range (imgWidth img - 4)).map (fun b => lbpCode img (a + 2) (b + 2)))

/-- Embedding of `extract_lbp_features(image)` at the program's only call
parameters (`radius=2, points=16`).  A height or width below `2*radius`
makes `np.zeros((height-4, width-4))` raise, which the surrounding
`try/except` converts to `np.zeros(256)`; otherwise the interior LBP codes
are histogrammed into 256 bins (`np.histogram(..., bins=256, range=(0,256))`
counts each code value exactly, codes being integers below 256) and the
histogram is divided by its sum when that sum is positive. -/
def extract_lbp_features (img : GrayImage) : List ℚ :=
  if imgHeight img < 4 ∨ imgWidth img < 4 then zeros 256
  else
    let codes := lbpInterior img
    let hist : List ℚ := (List.range 256).map (fun v => (codes.count v : ℚ))
    let s := hist.sum
    if 0 < s then hist.map (fun q => q / s) else hist

/-- Truncation toward zero, the semantics of Python's `int()` on a float. -/
noncomputable def truncInt (r : ℝ) : ℤ := if 0 ≤ r then ⌊r⌋ else ⌈r⌉

/-- Reference version of the inner LBP loop written with the source's real
trigonometry: sample coordinates are `int(j + 2*cos(2*pi*k/16))` and
`int(i - 2*sin(2*pi*k/16))` exactly as in the Python text. -/
noncomputable def lbpCodeReal (img : GrayImage) (i j : ℕ) : ℕ :=
  ((List.range 16).foldl (fun code (k : ℕ) =>
    let x : ℤ := truncInt ((j : ℝ) + 2 * Real.cos (2 * Real.pi * (k : ℝ) / 16))
    let y : ℤ := truncInt ((i : ℝ) - 2 * Real.sin (2 * Real.pi * (k : ℝ) / 16))
    if 0 ≤ x ∧ x < (imgWidth img : ℤ) ∧ 0 ≤ y ∧ y < (imgHeight img : ℤ) then
      code ||| ((if pixel img y x ≥ pixel img i j then 1 else 0) <<< k)
    else code) 0) % 256

/-- Modelled from the spec ("each sampled by nearest-pixel lookup"):
horizontal offsets when the sample point on the circle is mapped to the
NEAREST pixel, i.e. `round (2*cos(2*pi*k/16))`.  Faithfulness to that
reading is proved in `lbpDxNearest_eq_round`. -/
def lbpDxNearest : ℕ → ℤ := fun k =>
  [2, 2, 1, 1, 0, -1, -1, -2, -2, -2, -1, -1, 0, 1, 1, 2].getD k 0

/-- Modelled from the spec: vertical offsets under nearest-pixel lookup,
`round (-2*sin(2*pi*k/16))`.  Proved faithful in `lbpDyNearest_eq_round`. -/
def lbpDyNearest : ℕ → ℤ := fun k =>
  [0, -1, -1, -2, -2, -2, -1, -1, 0, 1, 1, 2, 2, 2, 1, 1].getD k 0

/-- Modelled from the spec: per-pixel code when the `p` circle points are
sampled by nearest-pixel lookup instead of the source's truncation. -/
def lbpCodeNearest (img : GrayImage) (i j : ℕ) : ℕ :=
  ((List.range 16).foldl (fun code k =>
    let x : ℤ := (j : ℤ) + lbpDxNearest k
    let y : ℤ := (i : ℤ) + lbpDyNearest k
    if 0 ≤ x ∧ x < (imgWidth img : ℤ) ∧ 0 ≤ y ∧ y < (imgHeight img : ℤ) then
      code ||| ((if pixel img y x ≥ pixel img i j then 1 else 0) <<< k)
    else code) 0) % 256

/-- Modelled from the spec: the full texture descriptor under the spec's
nearest-pixel reading; identical to `extract_lbp_features` except for the
pixel-lookup rule. -/
def lbpFeaturesNearest (img : GrayImage) : List ℚ :=
  if imgHeight img < 4 ∨ imgWidth img < 4 then zeros 256
  else
    let codes := (List.range (imgHeight img - 4)).flatMap (fun a =>
      (List.range (imgWidth img - 4)).map (fun b => lbpCodeNearest img (a + 2) (b + 2)))
    let hist : List ℚ := (List.range 256).map (fun v => (codes.count v : ℚ))
    let s := hist.sum
    if 0 < s then hist.map (fun q => q / s) else hist

/-- Results of the external calls made by `extract_face_encoding` on one
face crop.  Each field records what the corresponding library call would
return on that crop: `Except.error ()` models the call raising, and for the
color histograms `Except.ok none` models `cv2.calcHist` returning `None`
(the source guards `if hist is not None`). -/
structure ExtractOracle where
  /-- The primary path: `Some v` when `face_recognition.face_encodings`
  is importable, does not raise, and returns a nonempty list with first
  element `v`; `none` covers ImportError, an exception, and an empty
  list, all of which fall through to the fallback path. -/
  deepResult : Option (List ℚ)
  /-- Whether `cv2.resize(face_image, (128, 128))` succeeds. -/
  resizeOk : Bool
  /-- Per channel, the normalized flattened `cv2.calcHist` output. -/
  colorHist : Fin 3 → Except Unit (Option (List ℚ))
  /-- The grayscale conversion `cv2.cvtColor(face_resized, COLOR_BGR2GRAY)`. -/
  gray : Except Unit GrayImage
  /-- The raw 20-bin `np.histogram` counts of the `cv2.Canny` edge map. -/
  edgeHist : Except Unit (List ℚ)

/-- Contribution of one channel to the fallback feature vector: a `None`
histogram is silently skipped by the `if hist is not None` guard. -/
def optHist : Option (List ℚ) → List ℚ
  | none => []
  | some h => h

/-- Color-histogram section of the fallback path: the `for channel in
range(3)` loop, unrolled over its three fixed iterations.  A raised
exception in any channel propagates in iteration order (aborting the whole
fallback `try` block); a `None` histogram is silently skipped. -/
def colorFeatures (o : ExtractOracle) : Except Unit (List ℚ) :=
  match o.colorHist 0 with
  | .error e => .error e
  | .ok h0 =>
    match o.colorHist 1 with
    | .error e => .error e
    | .ok h1 =>
      match o.colorHist 2 with
      | .error e => .error e
      | .ok h2 => .ok (optHist h0 ++ optHist h1 ++ optHist h2)

/-- Fallback feature-based path of `extract_face_encoding` (the second
`try` block): color histograms, then the LBP texture histogram, then the
normalized edge histogram, concatenated.  Returns `none` when any
unprotected step raises (resize, a color histogram, grayscale conversion,
or the edge histogram); `extract_lbp_features` cannot raise (it catches
internally), so it always contributes exactly 256 entries. -/
def fallbackExtract (o : ExtractOracle) : Option (List ℚ) :=
  if o.resizeOk = false then none
  else
    match colorFeatures o with
    | .error _ => none
    | .ok colors =>
      match o.gray with
      | .error _ => none
      | .ok g =>
        let lbp := extract_lbp_features g
        match o.edgeHist with
        | .error _ => none
        | .ok raw =>
          let s := raw.sum
          let eh := if 0 < s then raw.map (fun q => q / s) else raw
          some (colors ++ lbp ++ eh)

/-- Embedding of `extract_face_encoding(face_image)`: `faceInvalid` models
`face_image is None or face_image.size == 0`.  The primary deep-learning
path wins when it yields an encoding; otherwise the fallback path runs, and
its failure surfaces as `(None, 'error')`. -/
def extract_face_encoding (faceInvalid : Bool) (o : ExtractOracle) :
    Option (List ℚ) × Method :=
  if faceInvalid then (none, .invalid)
  else
    match o.deepResult with
    | some enc => (some enc, .deep_learning)
    | none =>
      match fallbackExtract o with
      | some fs => (some fs, .feature_based)
      | none => (none, .error)

/-- Element-wise difference `encoding1 - encoding2` under numpy 1-D
broadcasting: equal lengths subtract pointwise, a length-1 operand
broadcasts, and any other shape mismatch raises (`none`, which
`compare_faces` turns into `float('inf')`). -/
def bsub (a b : List ℚ) : Option (List ℚ) :=
  if a.length = b.length then some (List.zipWith (fun x y => x - y) a b)
  else if a.length = 1 then some (b.map (fun y => a.headD 0 - y))
  else if b.length = 1 then some (a.map (fun x => x - b.headD 0))
  else none

/-- Element-wise product `weights * diff` under the same broadcasting. -/
def bmul (a b : List ℚ) : Option (List ℚ) :=
  if a.length = b.length then some (List.zipWith (fun x y => x * y) a b)
  else if a.length = 1 then some (b.map (fun y => a.headD 0 * y))
  else if b.length = 1 then some (a.map (fun x => x * b.headD 0))
  else none

/-- Sum of squares of a vector. -/
def sumSq (v : List ℚ) : ℚ := (v.map (fun x => x * x)).sum

/-- The weight vector of the feature-based branch: `np.ones_like(encoding1)`
with `weights[96:] = 2.0` applied when `len(weights) > 96` — equivalently,
weight 2 at every index `≥ 96` that exists, weight 1 below. -/
def weightsOf (e : List ℚ) : List ℚ :=
  (List.range e.length).map (fun i => if 96 ≤ i then 2 else 1)

/-- Embedding of `compare_faces(encoding1, encoding2, method)`.  Distances
live in `EReal`: `⊤` models `float('inf')`, returned when either encoding
is `None` or when the numpy arithmetic raises (shape mismatch).  The
`'deep_learning'` method is the L2 norm of the difference; every other
method value takes the weighted branch, exactly as the source's
`if method == 'deep_learning' ... else ...`. -/
noncomputable def compare_faces (a b : Option (List ℚ)) (m : Method) : EReal :=
  match a, b with
  | some e1, some e2 =>
    if m = .deep_learning then
      match bsub e1 e2 with
      | none => ⊤
      | some d => ((Real.sqrt (sumSq d) : ℝ) : EReal)
    else
      match bsub e1 e2 with
      | none => ⊤
      | some d =>
        match bmul (weightsOf e1) d with
        | none => ⊤
        | some wd => ((Real.sqrt (sumSq wd) : ℝ) : EReal)
  | _, _ => ⊤

/-- Action field of an audit event: the strings 'registration' and
'verification' passed to `log_verification`. -/
inductive AuditAction where
  | registration
  | verification
  deriving DecidableEq, Repr

/-- Details mapping of an audit event, restricted to the shapes the program
actually logs: `{'samples': n}`, `{'distance': d}`, `{'attempts': n}`. -/
inductive AuditDetails where
  | noDetails
  | samples (n : ℕ)
  | distance (d : EReal)
  | attempts (n : ℕ)

/-- One entry of `verification_logs` (the timestamp field is opaque data
never branched on, so it is omitted). -/
structure AuditEvent where
  username : String
  action : AuditAction
  success : Bool
  details : AuditDetails

/-- One entry of `known_faces` (again minus the opaque 'registered'
timestamp): the committed encoding, its method tag, and the sample count. -/
structure Identity where
  encoding : List ℚ
  method : Method
  samples : ℕ
  deriving DecidableEq

/-- Mutable state of a `FaceVerificationSystem` instance, plus
`saved_logs`, the persisted snapshot written by `save_logs` (`none` until
the first save). -/
structure SysState where
  known_faces : List (String × Identity)
  verification_logs : List AuditEvent
  saved_logs : Option (List AuditEvent)
  threshold : ℝ
  camera_available : Bool

/-- Python dict assignment `d[k] = v` on an association list. -/
def dictSet (kf : List (String × Identity)) (u : String) (idr : Identity) :
    List (String × Identity) :=
  (u, idr) :: kf.filter (fun p => p.1 ≠ u)

/-- The slice `logs[-1000:]`: the most recent `n` entries. -/
def lastN (n : ℕ) (l : List AuditEvent) : List AuditEvent :=
  l.drop (l.length - n)

/-- Embedding of `save_logs`: persist the last 1000 events (I/O errors are
swallowed by the source and do not affect state). -/
def save_logs (st : SysState) : SysState :=
  { st with saved_logs := some (lastN 1000 st.verification_logs) }

/-- Embedding of `log_verification`: append the event, then persist iff the
new total length is a multiple of 10. -/
def log_verification (st : SysState) (e : AuditEvent) : SysState :=
  let st1 := { st with verification_logs := st.verification_logs ++ [e] }
  if st1.verification_logs.length % 10 = 0 then save_logs st1 else st1

/-- One face detection handed to a workflow.  The bounding-box corner only
locates the crop inside the frame, so it is abstracted away: `extract`
records what `extract_face_encoding` returns on the cropped region and
`cropNonempty` records `face.size > 0`.  `fallbackEnc` is never consulted
by the embedded code: it records what the fallback feature extractor would
return on the same crop and is used only to state the spec's re-derivation
policy for claim C4. -/
structure Detection where
  w : ℤ
  h : ℤ
  cropNonempty : Bool
  extract : Option (List ℚ) × Method
  fallbackEnc : Option (List ℚ)
  deriving DecidableEq

/-- One iteration of the `register_user` polling loop as seen from the
outside: the elapsed wall-clock seconds at the top of the iteration and the
captured frame (`none` when `capture_frame` returns `None`), reduced to its
detector output. -/
structure RegPoll where
  elapsed : ℕ
  frame : Option (List Detection)
  deriving DecidableEq

/-- Terminal shape of the sample-collection loop of `register_user` on a
finite poll stream.  `outOfPolls` marks streams too short to decide the
outcome (the real loop would keep polling the camera). -/
inductive RegCollect where
  | timedOut
  | done (samples : List (List ℚ × Method))
  | outOfPolls (samples : List (List ℚ × Method))
  deriving DecidableEq

/-- The `while sample_count < num_samples` loop of `register_user`: timeout
check, frame capture, detection, the `w > 100 and h > 100` size gate on the
first detection, and sample collection. -/
def regLoop (numSamples : ℕ) (polls : List RegPoll)
    (samples : List (List ℚ × Method)) : RegCollect :=
  if numSamples ≤ samples.length then .done samples
  else
    match polls with
    | [] => .outOfPolls samples
    | poll :: rest =>
      if 30 < poll.elapsed then .timedOut
      else
        match poll.frame with
        | none => regLoop numSamples rest samples
        | some [] => regLoop numSamples rest samples
        | some (d :: _) =>
          if d.cropNonempty = true then
            if 100 < d.w ∧ 100 < d.h then
              match d.extract with
              | (some enc, m) => regLoop numSamples rest (samples ++ [(enc, m)])
              | (none, _) => regLoop numSamples rest samples
            else regLoop numSamples rest samples
          else regLoop numSamples rest samples

/-- Pointwise sum of two vectors (`np.mean` adds the sample vectors, which
all have equal length in any reachable run). -/
def vadd (a b : List ℚ) : List ℚ := List.zipWith (fun x y => x + y) a b

/-- Embedding of `np.mean(vs, axis=0)`: pointwise sum divided by count. -/
def meanVecs (l : List (List ℚ)) : List ℚ :=
  match l with
  | [] => []
  | v :: rest => (rest.foldl vadd v).map (fun x => x / (l.length : ℚ))

/-- The aggregation block of `register_user` (lines 281-294): partition the
collected samples by method, prefer the deep-learning subset when nonempty,
else the feature-based subset, else fail ('No valid samples collected').
An empty sample list falls to the final 'No valid faces detected' failure;
both failures return `none`. -/
def aggregate (samples : List (List ℚ × Method)) :
    Option (List ℚ × Method) :=
  if samples = [] then none
  else
    let dl := (samples.filter (fun s => s.2 == Method.deep_learning)).map (fun s => s.1)
    let fb := (samples.filter (fun s => s.2 == Method.feature_based)).map (fun s => s.1)
    if dl ≠ [] then some (meanVecs dl, .deep_learning)
    else if fb ≠ [] then some (meanVecs fb, .feature_based)
    else none

/-- Embedding of `register_user(username, num_samples)` driven by a finite
poll stream; `none` means the stream ended before the loop terminated.
Note that the timeout and aggregation failures return `False` without
appending any audit event, and only the success path mutates `known_faces`
and logs. -/
def register_user (st : SysState) (username : String) (numSamples : ℕ)
    (polls : List RegPoll) : Option (Bool × SysState) :=
  if st.camera_available = false then some (false, st)
  else
    match regLoop numSamples polls [] with
    | .outOfPolls _ => none
    | .timedOut => some (false, st)
    | .done samples =>
      match aggregate samples with
      | none => some (false, st)
      | some (enc, m) =>
        let st1 := { st with
          known_faces := dictSet st.known_faces username ⟨enc, m, samples.length⟩ }
        let st2 := log_verification st1
          ⟨username, .registration, true, .samples samples.length⟩
        some (true, st2)

/-- Candidate distance of one extracted verification encoding against the
stored one (lines 346-350): the stored method when the tags agree, else the
feature-based branch applied directly to the two encodings as they are. -/
noncomputable def candDistance (reg : List ℚ) (rm : Method)
    (enc : List ℚ) (dm : Method) : EReal :=
  if rm = dm then compare_faces (some enc) (some reg) rm
  else compare_faces (some enc) (some reg) .feature_based

/-- The per-attempt `for (x, y, w, h) in faces` loop of `verify_user`:
fold the minimum candidate distance over the detections that pass the
nonempty-crop and size gates and yield an encoding, starting from
`float('inf')`. -/
noncomputable def attemptBest (dets : List Detection) (reg : List ℚ)
    (rm : Method) : EReal :=
  dets.foldl (fun best d =>
    if d.cropNonempty = true ∧ 100 < d.w ∧ 100 < d.h then
      match d.extract with
      | (some enc, dm) => min best (candDistance reg rm enc dm)
      | (none, _) => best
    else best) ⊤

/-- The `for attempt in range(max_attempts)` loop of `verify_user`: `i` is
the current attempt index, the second argument the number of attempts left.
A failed capture skips to the next attempt; acceptance is strict
`best_distance < threshold` and terminates immediately with a success log;
exhaustion logs a failure carrying `max_attempts`. -/
noncomputable def verifyLoop (st : SysState) (username : String)
    (reg : List ℚ) (rm : Method) (maxAttempts : ℕ)
    (frames : ℕ → Option (List Detection)) : ℕ → ℕ → Bool × SysState
  | _, 0 =>
    (false, log_verification st ⟨username, .verification, false, .attempts maxAttempts⟩)
  | i, n + 1 =>
    match frames i with
    | none => verifyLoop st username reg rm maxAttempts frames (i + 1) n
    | some dets =>
      let best := attemptBest dets reg rm
      if best < ((st.threshold : ℝ) : EReal) then
        (true, log_verification st ⟨username, .verification, true, .distance best⟩)
      else verifyLoop st username reg rm maxAttempts frames (i + 1) n

/-- Embedding of `verify_user(username, max_attempts)`: unknown users and a
missing camera fail immediately without logging; otherwise the attempt loop
runs against the stored identity. -/
noncomputable def verify_user (st : SysState) (username : String)
    (maxAttempts : ℕ) (frames : ℕ → Option (List Detection)) :
    Bool × SysState :=
  match st.known_faces.lookup username with
  | none => (false, st)
  | some idr =>
    if st.camera_available = false then (false, st)
    else verifyLoop st username idr.encoding idr.method maxAttempts frames 0 maxAttempts

/-- Modelled from the spec ("the method that produced the majority of the
contributing samples, ties resolved in favor of the embedding method if any
embedding-method sample exists, else feature-based"): the method tag the
spec says a committed Identity must carry. -/
def majorityMethod (ms : List Method) : Method :=
  let dl := ms.count .deep_learning
  let fb := ms.count .feature_based
  if fb < dl then .deep_learning
  else if dl < fb then .feature_based
  else if 0 < dl then .deep_learning
  else .feature_based

/-- Modelled from the spec ("re-derive a feature-based comparison ... by
re-extracting with the fallback path"): the candidate distance the spec
prescribes for a detection during verification — on a method mismatch the
fresh side is replaced by the fallback (feature-based) re-extraction of the
same crop before invoking the engine. -/
noncomputable def specDistanceC4 (reg : List ℚ) (rm : Method)
    (d : Detection) : EReal :=
  match d.extract with
  | (some enc, dm) =>
    if rm = dm then compare_faces (some enc) (some reg) rm
    else compare_faces d.fallbackEnc (some reg) .feature_based
  | (none, _) => ⊤

/-- Best distance a single attempt of `verify_user` can see, as a function
of the attempt index: `⊤` when the capture fails (the loop then skips the
threshold check, which is equivalent because `⊤` is never below a real
threshold), else the fold over the frame's detections. -/
noncomputable def attBest (reg : List ℚ) (rm : Method)
    (frames : ℕ → Option (List Detection)) (i : ℕ) : EReal :=
  match frames i with
  | none => ⊤
  | some dets => attemptBest dets reg rm

/-- Concrete 5x5 grayscale image separating the source's truncation lookup
from the spec's nearest-pixel lookup: the only interior pixel is the
center `(2,2)` (intensity 100), and the only bright pixel `(1,3)`
(intensity 255) is sampled as point `k = 1` by the truncating code
(offset `(+1,-1)`) but as point `k = 2` by nearest-pixel rounding, so the
two descriptors put their unit mass in different histogram bins. -/
def img5 : GrayImage :=
  [[0, 0, 0, 0, 0],
   [0, 0, 0, 255, 0],
   [0, 0, 100, 0, 0],
   [0, 0, 0, 0, 0],
   [0, 0, 0, 0, 0]]

/-- Extraction-oracle fixture for C3: the primary path yields nothing, the
resize succeeds, and the channel-0 color histogram raises while everything
else would succeed. -/
def oracle3 : ExtractOracle where
  deepResult := none
  resizeOk := true
  colorHist := fun ch => if ch = 0 then .error () else .ok (some (zeros 32))
  gray := .ok []
  edgeHist := .ok (zeros 20)

/-- Extraction-oracle fixture with every sub-computation succeeding but a
degenerate (empty) grayscale image, so only the texture descriptor
degrades to zeros. -/
def oracle3b : ExtractOracle where
  deepResult := none
  resizeOk := true
  colorHist := fun _ => .ok (some (zeros 32))
  gray := .ok []
  edgeHist := .ok (zeros 20)

/-- Detection fixture for C4: a large, nonempty crop whose extraction
produced the embedding-tagged vector `[1]`, while the fallback path on the
same crop would produce `[0]`. -/
def d4 : Detection where
  w := 200
  h := 200
  cropNonempty := true
  extract := (some [1], .deep_learning)
  fallbackEnc := some [0]

/-- Empty system state with camera available and threshold `0.6`. -/
noncomputable def st0 : SysState where
  known_faces := []
  verification_logs := []
  saved_logs := none
  threshold := 3 / 5
  camera_available := true

/-- Identity fixture: user `u` enrolled with the embedding-tagged encoding
`[0]` from one sample. -/
def idr0 : Identity where
  encoding := [0]
  method := .deep_learning
  samples := 1

/-- State with `u` enrolled as `idr0`, camera available, threshold `0.6`. -/
noncomputable def stA : SysState where
  known_faces := [("u", idr0)]
  verification_logs := []
  saved_logs := none
  threshold := 3 / 5
  camera_available := true

/-- Frame stream whose every attempt sees one qualifying detection at
distance `0.59` from `idr0`. -/
def frames59 : ℕ → Option (List Detection) := fun _ =>
  some [⟨200, 200, true, (some [59 / 100], .deep_learning), none⟩]

/-- Frame stream whose every attempt sees one qualifying detection at
distance `0.60` from `idr0`. -/
def frames60 : ℕ → Option (List Detection) := fun _ =>
  some [⟨200, 200, true, (some [3 / 5], .deep_learning), none⟩]

/-- Poll stream fixture for C1: three qualifying detections whose
extractions carry methods embedding, feature-based, feature-based. -/
def polls1 : List RegPoll :=
  [⟨0, some [⟨200, 200, true, (some [1], .deep_learning), none⟩]⟩,
   ⟨1, some [⟨200, 200, true, (some [2], .feature_based), none⟩]⟩,
   ⟨2, some [⟨200, 200, true, (some [2], .feature_based), none⟩]⟩]

/-! Numeric bounds for the sampling offsets of the LBP loop.  The values
`2*cos(2*pi*k/16)` and `-2*sin(2*pi*k/16)` all lie in
`{0, ±√2, ±√(2+√2), ±√(2-√2), ±2}`. -/

lemma sqrt_two_gt_one : (1 : ℝ) < Real.sqrt 2 := by
  rw [show (1 : ℝ) = Real.sqrt 1 by rw [Real.sqrt_one]]
  exact Real.sqrt_lt_sqrt (by norm_num) (by norm_num)

lemma sqrt_two_lt : Real.sqrt 2 < 3 / 2 :=
  (Real.sqrt_lt' (by norm_num)).2 (by norm_num)

lemma sqrt_tps_gt : (3 : ℝ) / 2 < Real.sqrt (2 + Real.sqrt 2) := by
  rw [Real.lt_sqrt (by norm_num)]
  nlinarith [sqrt_two_gt_one]

lemma sqrt_tps_lt : Real.sqrt (2 + Real.sqrt 2) < 2 := by
  rw [Real.sqrt_lt' (by norm_num)]
  nlinarith [sqrt_two_lt]

lemma sqrt_tms_gt : (1 : ℝ) / 2 < Real.sqrt (2 - Real.sqrt 2) := by
  rw [Real.lt_sqrt (by norm_num)]
  nlinarith [sqrt_two_lt]

lemma sqrt_tms_lt : Real.sqrt (2 - Real.sqrt 2) < 1 := by
  rw [Real.sqrt_lt' (by norm_num)]
  nlinarith [sqrt_two_gt_one]

lemma floor_sqrt_two : ⌊Real.sqrt 2⌋ = 1 := by
  rw [Int.floor_eq_iff]
  constructor
  · push_cast
    linarith [sqrt_two_gt_one]
  · push_cast
    linarith [sqrt_two_lt]

lemma floor_neg_sqrt_two : ⌊-Real.sqrt 2⌋ = -2 := by
  rw [Int.floor_eq_iff]
  constructor
  · push_cast
    linarith [sqrt_two_lt]
  · push_cast
    linarith [sqrt_two_gt_one]

lemma floor_sqrt_tps : ⌊Real.sqrt (2 + Real.sqrt 2)⌋ = 1 := by
  rw [Int.floor_eq_iff]
  constructor
  · push_cast
    linarith [sqrt_tps_gt]
  · push_cast
    linarith [sqrt_tps_lt]

lemma floor_neg_sqrt_tps : ⌊-Real.sqrt (2 + Real.sqrt 2)⌋ = -2 := by
  rw [Int.floor_eq_iff]
  constructor
  · push_cast
    linarith [sqrt_tps_lt]
  · push_cast
    linarith [sqrt_tps_gt]

lemma floor_sqrt_tms : ⌊Real.sqrt (2 - Real.sqrt 2)⌋ = 0 := by
  rw [Int.floor_eq_iff]
  constructor
  · push_cast
    exact Real.sqrt_nonneg _
  · push_cast
    linarith [sqrt_tms_lt]

lemma floor_neg_sqrt_tms : ⌊-Real.sqrt (2 - Real.sqrt 2)⌋ = -1 := by
  rw [Int.floor_eq_iff]
  constructor
  · push_cast
    linarith [sqrt_tms_lt]
  · push_cast
    linarith [sqrt_tms_gt]

lemma round_sqrt_two : round (Real.sqrt 2) = 1 := by
  rw [round_eq, Int.floor_eq_iff]
  constructor
  · push_cast
    linarith [sqrt_two_gt_one]
  · push_cast
    linarith [sqrt_two_lt]

lemma round_neg_sqrt_two : round (-Real.sqrt 2) = -1 := by
  rw [round_eq, Int.floor_eq_iff]
  constructor
  · push_cast
    linarith [sqrt_two_lt]
  · push_cast
    linarith [sqrt_two_gt_one]

lemma round_sqrt_tps : round (Real.sqrt (2 + Real.sqrt 2)) = 2 := by
  rw [round_eq, Int.floor_eq_iff]
  constructor
  · push_cast
    linarith [sqrt_tps_gt]
  · push_cast
    linarith [sqrt_tps_lt]

lemma round_neg_sqrt_tps : round (-Real.sqrt (2 + Real.sqrt 2)) = -2 := by
  rw [round_eq, Int.floor_eq_iff]
  constructor
  · push_cast
    linarith [sqrt_tps_lt]
  · push_cast
    linarith [sqrt_tps_gt]

lemma round_sqrt_tms : round (Real.sqrt (2 - Real.sqrt 2)) = 1 := by
  rw [round_eq, Int.floor_eq_iff]
  constructor
  · push_cast
    linarith [sqrt_tms_gt]
  · push_cast
    linarith [sqrt_tms_lt]

lemma round_neg_sqrt_tms : round (-Real.sqrt (2 - Real.sqrt 2)) = -1 := by
  rw [round_eq, Int.floor_eq_iff]
  constructor
  · push_cast
    linarith [sqrt_tms_lt]
  · push_cast
    linarith [sqrt_tms_gt]

/-! Closed forms of `2*cos(2*pi*k/16)` and `-(2*sin(2*pi*k/16))` for
`k = 0, ..., 15`. -/

lemma cosv0 : 2 * Real.cos (2 * Real.pi * (0 : ℝ) / 16) = 2 := by
  norm_num

lemma cosv1 : 2 * Real.cos (2 * Real.pi * (1 : ℝ) / 16)
    = Real.sqrt (2 + Real.sqrt 2) := by
  have h : 2 * Real.pi * (1 : ℝ) / 16 = Real.pi / 8 := by ring
  rw [h, Real.cos_pi_div_eight]; ring

lemma cosv2 : 2 * Real.cos (2 * Real.pi * (2 : ℝ) / 16) = Real.sqrt 2 := by
  have h : 2 * Real.pi * (2 : ℝ) / 16 = Real.pi / 4 := by ring
  rw [h, Real.cos_pi_div_four]; ring

lemma cosv3 : 2 * Real.cos (2 * Real.pi * (3 : ℝ) / 16)
    = Real.sqrt (2 - Real.sqrt 2) := by
  have h : 2 * Real.pi * (3 : ℝ) / 16 = Real.pi / 2 - Real.pi / 8 := by ring
  rw [h, Real.cos_pi_div_two_sub, Real.sin_pi_div_eight]; ring

lemma cosv4 : 2 * Real.cos (2 * Real.pi * (4 : ℝ) / 16) = 0 := by
  have h : 2 * Real.pi * (4 : ℝ) / 16 = Real.pi / 2 := by ring
  rw [h, Real.cos_pi_div_two]; ring

lemma cosv5 : 2 * Real.cos (2 * Real.pi * (5 : ℝ) / 16)
    = -Real.sqrt (2 - Real.sqrt 2) := by
  have h : 2 * Real.pi * (5 : ℝ) / 16
      = Real.pi - (Real.pi / 2 - Real.pi / 8) := by ring
  rw [h, Real.cos_pi_sub, Real.cos_pi_div_two_sub, Real.sin_pi_div_eight]; ring

lemma cosv6 : 2 * Real.cos (2 * Real.pi * (6 : ℝ) / 16) = -Real.sqrt 2 := by
  have h : 2 * Real.pi * (6 : ℝ) / 16 = Real.pi - Real.pi / 4 := by ring
  rw [h, Real.cos_pi_sub, Real.cos_pi_div_four]; ring

lemma cosv7 : 2 * Real.cos (2 * Real.pi * (7 : ℝ) / 16)
    = -Real.sqrt (2 + Real.sqrt 2) := by
  have h : 2 * Real.pi * (7 : ℝ) / 16 = Real.pi - Real.pi / 8 := by ring
  rw [h, Real.cos_pi_sub, Real.cos_pi_div_eight]; ring

lemma cosv8 : 2 * Real.cos (2 * Real.pi * (8 : ℝ) / 16) = -2 := by
  have h : 2 * Real.pi * (8 : ℝ) / 16 = Real.pi := by ring
  rw [h, Real.cos_pi]; ring

lemma cosv9 : 2 * Real.cos (2 * Real.pi * (9 : ℝ) / 16)
    = -Real.sqrt (2 + Real.sqrt 2) := by
  have h : 2 * Real.pi * (9 : ℝ) / 16
      = 2 * Real.pi - (Real.pi - Real.pi / 8) := by ring
  rw [h, Real.cos_two_pi_sub, Real.cos_pi_sub, Real.cos_pi_div_eight]; ring

lemma cosv10 : 2 * Real.cos (2 * Real.pi * (10 : ℝ) / 16) = -Real.sqrt 2 := by
  have h : 2 * Real.pi * (10 : ℝ) / 16
      = 2 * Real.pi - (Real.pi - Real.pi / 4) := by ring
  rw [h, Real.cos_two_pi_sub, Real.cos_pi_sub, Real.cos_pi_div_four]; ring

lemma cosv11 : 2 * Real.cos (2 * Real.pi * (11 : ℝ) / 16)
    = -Real.sqrt (2 - Real.sqrt 2) := by
  have h : 2 * Real.pi * (11 : ℝ) / 16
      = 2 * Real.pi - (Real.pi - (Real.pi / 2 - Real.pi / 8)) := by ring
  rw [h, Real.cos_two_pi_sub, Real.cos_pi_sub, Real.cos_pi_div_two_sub,
    Real.sin_pi_div_eight]; ring

lemma cosv12 : 2 * Real.cos (2 * Real.pi * (12 : ℝ) / 16) = 0 := by
  have h : 2 * Real.pi * (12 : ℝ) / 16 = 2 * Real.pi - Real.pi / 2 := by ring
  rw [h, Real.cos_two_pi_sub, Real.cos_pi_div_two]; ring

lemma cosv13 : 2 * Real.cos (2 * Real.pi * (13 : ℝ) / 16)
    = Real.sqrt (2 - Real.sqrt 2) := by
  have h : 2 * Real.pi * (13 : ℝ) / 16
      = 2 * Real.pi - (Real.pi / 2 - Real.pi / 8) := by ring
  rw [h, Real.cos_two_pi_sub, Real.cos_pi_div_two_sub, Real.sin_pi_div_eight]
  ring

lemma cosv14 : 2 * Real.cos (2 * Real.pi * (14 : ℝ) / 16) = Real.sqrt 2 := by
  have h : 2 * Real.pi * (14 : ℝ) / 16 = 2 * Real.pi - Real.pi / 4 := by ring
  rw [h, Real.cos_two_pi_sub, Real.cos_pi_div_four]; ring

lemma cosv15 : 2 * Real.cos (2 * Real.pi * (15 : ℝ) / 16)
    = Real.sqrt (2 + Real.sqrt 2) := by
  have h : 2 * Real.pi * (15 : ℝ) / 16 = 2 * Real.pi - Real.pi / 8 := by ring
  rw [h, Real.cos_two_pi_sub, Real.cos_pi_div_eight]; ring

lemma msinv0 : -(2 * Real.sin (2 * Real.pi * (0 : ℝ) / 16)) = 0 := by
  norm_num

lemma msinv1 : -(2 * Real.sin (2 * Real.pi * (1 : ℝ) / 16))
    = -Real.sqrt (2 - Real.sqrt 2) := by
  have h : 2 * Real.pi * (1 : ℝ) / 16 = Real.pi / 8 := by ring
  rw [h, Real.sin_pi_div_eight]; ring

lemma msinv2 : -(2 * Real.sin (2 * Real.pi * (2 : ℝ) / 16)) = -Real.sqrt 2 := by
  have h : 2 * Real.pi * (2 : ℝ) / 16 = Real.pi / 4 := by ring
  rw [h, Real.sin_pi_div_four]; ring

lemma msinv3 : -(2 * Real.sin (2 * Real.pi * (3 : ℝ) / 16))
    = -Real.sqrt (2 + Real.sqrt 2) := by
  have h : 2 * Real.pi * (3 : ℝ) / 16 = Real.pi / 2 - Real.pi / 8 := by ring
  rw [h, Real.sin_pi_div_two_sub, Real.cos_pi_div_eight]; ring

lemma msinv4 : -(2 * Real.sin (2 * Real.pi * (4 : ℝ) / 16)) = -2 := by
  have h : 2 * Real.pi * (4 : ℝ) / 16 = Real.pi / 2 := by ring
  rw [h, Real.sin_pi_div_two]; ring

lemma msinv5 : -(2 * Real.sin (2 * Real.pi * (5 : ℝ) / 16))
    = -Real.sqrt (2 + Real.sqrt 2) := by
  have h : 2 * Real.pi * (5 : ℝ) / 16
      = Real.pi - (Real.pi / 2 - Real.pi / 8) := by ring
  rw [h, Real.sin_pi_sub, Real.sin_pi_div_two_sub, Real.cos_pi_div_eight]; ring

lemma msinv6 : -(2 * Real.sin (2 * Real.pi * (6 : ℝ) / 16)) = -Real.sqrt 2 := by
  have h : 2 * Real.pi * (6 : ℝ) / 16 = Real.pi - Real.pi / 4 := by ring
  rw [h, Real.sin_pi_sub, Real.sin_pi_div_four]; ring

lemma msinv7 : -(2 * Real.sin (2 * Real.pi * (7 : ℝ) / 16))
    = -Real.sqrt (2 - Real.sqrt 2) := by
  have h : 2 * Real.pi * (7 : ℝ) / 16 = Real.pi - Real.pi / 8 := by ring
  rw [h, Real.sin_pi_sub, Real.sin_pi_div_eight]; ring

lemma msinv8 : -(2 * Real.sin (2 * Real.pi * (8 : ℝ) / 16)) = 0 := by
  have h : 2 * Real.pi * (8 : ℝ) / 16 = Real.pi := by ring
  rw [h, Real.sin_pi]; ring

lemma msinv9 : -(2 * Real.sin (2 * Real.pi * (9 : ℝ) / 16))
    = Real.sqrt (2 - Real.sqrt 2) := by
  have h : 2 * Real.pi * (9 : ℝ) / 16
      = 2 * Real.pi - (Real.pi - Real.pi / 8) := by ring
  rw [h, Real.sin_two_pi_sub, Real.sin_pi_sub, Real.sin_pi_div_eight]; ring

lemma msinv10 : -(2 * Real.sin (2 * Real.pi * (10 : ℝ) / 16)) = Real.sqrt 2 := by
  have h : 2 * Real.pi * (10 : ℝ) / 16
      = 2 * Real.pi - (Real.pi - Real.pi / 4) := by ring
  rw [h, Real.sin_two_pi_sub, Real.sin_pi_sub, Real.sin_pi_div_four]; ring

lemma msinv11 : -(2 * Real.sin (2 * Real.pi * (11 : ℝ) / 16))
    = Real.sqrt (2 + Real.sqrt 2) := by
  have h : 2 * Real.pi * (11 : ℝ) / 16
      = 2 * Real.pi - (Real.pi - (Real.pi / 2 - Real.pi / 8)) := by ring
  rw [h, Real.sin_two_pi_sub, Real.sin_pi_sub, Real.sin_pi_div_two_sub,
    Real.cos_pi_div_eight]; ring

lemma msinv12 : -(2 * Real.sin (2 * Real.pi * (12 : ℝ) / 16)) = 2 := by
  have h : 2 * Real.pi * (12 : ℝ) / 16 = 2 * Real.pi - Real.pi / 2 := by ring
  rw [h, Real.sin_two_pi_sub, Real.sin_pi_div_two]; ring

lemma msinv13 : -(2 * Real.sin (2 * Real.pi * (13 : ℝ) / 16))
    = Real.sqrt (2 + Real.sqrt 2) := by
  have h : 2 * Real.pi * (13 : ℝ) / 16
      = 2 * Real.pi - (Real.pi / 2 - Real.pi / 8) := by ring
  rw [h, Real.sin_two_pi_sub, Real.sin_pi_div_two_sub, Real.cos_pi_div_eight]
  ring

lemma msinv14 : -(2 * Real.sin (2 * Real.pi * (14 : ℝ) / 16)) = Real.sqrt 2 := by
  have h : 2 * Real.pi * (14 : ℝ) / 16 = 2 * Real.pi - Real.pi / 4 := by ring
  rw [h, Real.sin_two_pi_sub, Real.sin_pi_div_four]; ring

lemma msinv15 : -(2 * Real.sin (2 * Real.pi * (15 : ℝ) / 16))
    = Real.sqrt (2 - Real.sqrt 2) := by
  have h : 2 * Real.pi * (15 : ℝ) / 16 = 2 * Real.pi - Real.pi / 8 := by ring
  rw [h, Real.sin_two_pi_sub, Real.sin_pi_div_eight]; ring

lemma floor_two_real : ⌊(2 : ℝ)⌋ = 2 := by
  rw [show (2 : ℝ) = ((2 : ℤ) : ℝ) by norm_num, Int.floor_intCast]

lemma floor_neg_two_real : ⌊(-2 : ℝ)⌋ = -2 := by
  rw [show (-2 : ℝ) = ((-2 : ℤ) : ℝ) by norm_num, Int.floor_intCast]

lemma round_two_real : round (2 : ℝ) = 2 := by
  rw [show (2 : ℝ) = ((2 : ℤ) : ℝ) by norm_num, round_intCast]

lemma round_neg_two_real : round (-2 : ℝ) = -2 := by
  rw [show (-2 : ℝ) = ((-2 : ℤ) : ℝ) by norm_num, round_intCast]

/-- The offset table of the embedded LBP loop agrees with the floor of the
source's `2*cos(2*pi*k/16)` for every sample index. -/
lemma lbpDx_eq_floor (k : ℕ) (hk : k < 16) :
    lbpDx k = ⌊2 * Real.cos (2 * Real.pi * (k : ℝ) / 16)⌋ := by
  interval_cases k
  · push_cast; rw [cosv0, floor_two_real]; rfl
  · push_cast; rw [cosv1, floor_sqrt_tps]; rfl
  · push_cast; rw [cosv2, floor_sqrt_two]; rfl
  · push_cast; rw [cosv3, floor_sqrt_tms]; rfl
  · push_cast; rw [cosv4, Int.floor_zero]; rfl
  · push_cast; rw [cosv5, floor_neg_sqrt_tms]; rfl
  · push_cast; rw [cosv6, floor_neg_sqrt_two]; rfl
  · push_cast; rw [cosv7, floor_neg_sqrt_tps]; rfl
  · push_cast; rw [cosv8, floor_neg_two_real]; rfl
  · push_cast; rw [cosv9, floor_neg_sqrt_tps]; rfl
  · push_cast; rw [cosv10, floor_neg_sqrt_two]; rfl
  · push_cast; rw [cosv11, floor_neg_sqrt_tms]; rfl
  · push_cast; rw [cosv12, Int.floor_zero]; rfl
  · push_cast; rw [cosv13, floor_sqrt_tms]; rfl
  · push_cast; rw [cosv14, floor_sqrt_two]; rfl
  · push_cast; rw [cosv15, floor_sqrt_tps]; rfl

/-- The vertical offset table agrees with the floor of the source's
`-2*sin(2*pi*k/16)`. -/
lemma lbpDy_eq_floor (k : ℕ) (hk : k < 16) :
    lbpDy k = ⌊-(2 * Real.sin (2 * Real.pi * (k : ℝ) / 16))⌋ := by
  interval_cases k
  · push_cast; rw [msinv0, Int.floor_zero]; rfl
  · push_cast; rw [msinv1, floor_neg_sqrt_tms]; rfl
  · push_cast; rw [msinv2, floor_neg_sqrt_two]; rfl
  · push_cast; rw [msinv3, floor_neg_sqrt_tps]; rfl
  · push_cast; rw [msinv4, floor_neg_two_real]; rfl
  · push_cast; rw [msinv5, floor_neg_sqrt_tps]; rfl
  · push_cast; rw [msinv6, floor_neg_sqrt_two]; rfl
  · push_cast; rw [msinv7, floor_neg_sqrt_tms]; rfl
  · push_cast; rw [msinv8, Int.floor_zero]; rfl
  · push_cast; rw [msinv9, floor_sqrt_tms]; rfl
  · push_cast; rw [msinv10, floor_sqrt_two]; rfl
  · push_cast; rw [msinv11, floor_sqrt_tps]; rfl
  · push_cast; rw [msinv12, floor_two_real]; rfl
  · push_cast; rw [msinv13, floor_sqrt_tps]; rfl
  · push_cast; rw [msinv14, floor_sqrt_two]; rfl
  · push_cast; rw [msinv15, floor_sqrt_tms]; rfl

/-- The nearest-pixel offset table is the rounding of `2*cos(2*pi*k/16)`,
i.e. it faithfully renders the spec's "nearest-pixel lookup". -/
lemma lbpDxNearest_eq_round (k : ℕ) (hk : k < 16) :
    lbpDxNearest k = round (2 * Real.cos (2 * Real.pi * (k : ℝ) / 16)) := by
  interval_cases k
  · push_cast; rw [cosv0, round_two_real]; rfl
  · push_cast; rw [cosv1, round_sqrt_tps]; rfl
  · push_cast; rw [cosv2, round_sqrt_two]; rfl
  · push_cast; rw [cosv3, round_sqrt_tms]; rfl
  · push_cast; rw [cosv4, round_zero]; rfl
  · push_cast; rw [cosv5, round_neg_sqrt_tms]; rfl
  · push_cast; rw [cosv6, round_neg_sqrt_two]; rfl
  · push_cast; rw [cosv7, round_neg_sqrt_tps]; rfl
  · push_cast; rw [cosv8, round_neg_two_real]; rfl
  · push_cast; rw [cosv9, round_neg_sqrt_tps]; rfl
  · push_cast; rw [cosv10, round_neg_sqrt_two]; rfl
  · push_cast; rw [cosv11, round_neg_sqrt_tms]; rfl
  · push_cast; rw [cosv12, round_zero]; rfl
  · push_cast; rw [cosv13, round_sqrt_tms]; rfl
  · push_cast; rw [cosv14, round_sqrt_two]; rfl
  · push_cast; rw [cosv15, round_sqrt_tps]; rfl

/-- The vertical nearest-pixel offset table is the rounding of
`-2*sin(2*pi*k/16)`. -/
lemma lbpDyNearest_eq_round (k : ℕ) (hk : k < 16) :
    lbpDyNearest k = round (-(2 * Real.sin (2 * Real.pi * (k : ℝ) / 16))) := by
  interval_cases k
  · push_cast; rw [msinv0, round_zero]; rfl
  · push_cast; rw [msinv1, round_neg_sqrt_tms]; rfl
  · push_cast; rw [msinv2, round_neg_sqrt_two]; rfl
  · push_cast; rw [msinv3, round_neg_sqrt_tps]; rfl
  · push_cast; rw [msinv4, round_neg_two_real]; rfl
  · push_cast; rw [msinv5, round_neg_sqrt_tps]; rfl
  · push_cast; rw [msinv6, round_neg_sqrt_two]; rfl
  · push_cast; rw [msinv7, round_neg_sqrt_tms]; rfl
  · push_cast; rw [msinv8, round_zero]; rfl
  · push_cast; rw [msinv9, round_sqrt_tms]; rfl
  · push_cast; rw [msinv10, round_sqrt_two]; rfl
  · push_cast; rw [msinv11, round_sqrt_tps]; rfl
  · push_cast; rw [msinv12, round_two_real]; rfl
  · push_cast; rw [msinv13, round_sqrt_tps]; rfl
  · push_cast; rw [msinv14, round_sqrt_two]; rfl
  · push_cast; rw [msinv15, round_sqrt_tms]; rfl

/-- Python `int(j + 2*cos(2*pi*k/16))` at an interior column `j ≥ 2` equals
`j` plus the table offset: the argument is nonnegative there, so truncation
is the floor, and the floor splits off the integer part. -/
lemma truncInt_add_cos (j : ℕ) (hj : 2 ≤ j) (k : ℕ) (hk : k < 16) :
    truncInt ((j : ℝ) + 2 * Real.cos (2 * Real.pi * (k : ℝ) / 16))
      = (j : ℤ) + lbpDx k := by
  have hc : -2 ≤ 2 * Real.cos (2 * Real.pi * (k : ℝ) / 16) := by
    nlinarith [Real.neg_one_le_cos (2 * Real.pi * (k : ℝ) / 16)]
  have hj2 : (2 : ℝ) ≤ (j : ℝ) := by exact_mod_cast hj
  have hnn : 0 ≤ (j : ℝ) + 2 * Real.cos (2 * Real.pi * (k : ℝ) / 16) := by
    linarith
  rw [truncInt, if_pos hnn, Int.floor_nat_add, lbpDx_eq_floor k hk]

/-- Python `int(i - 2*sin(2*pi*k/16))` at an interior row `i ≥ 2` equals
`i` plus the vertical table offset. -/
lemma truncInt_sub_sin (i : ℕ) (hi : 2 ≤ i) (k : ℕ) (hk : k < 16) :
    truncInt ((i : ℝ) - 2 * Real.sin (2 * Real.pi * (k : ℝ) / 16))
      = (i : ℤ) + lbpDy k := by
  have hs : -2 ≤ -(2 * Real.sin (2 * Real.pi * (k : ℝ) / 16)) := by
    nlinarith [Real.sin_le_one (2 * Real.pi * (k : ℝ) / 16)]
  have hi2 : (2 : ℝ) ≤ (i : ℝ) := by exact_mod_cast hi
  have he : (i : ℝ) - 2 * Real.sin (2 * Real.pi * (k : ℝ) / 16)
      = (i : ℝ) + -(2 * Real.sin (2 * Real.pi * (k : ℝ) / 16)) := by ring
  have hnn : 0 ≤ (i : ℝ) - 2 * Real.sin (2 * Real.pi * (k : ℝ) / 16) := by
    linarith
  rw [truncInt, if_pos hnn, he, Int.floor_nat_add, lbpDy_eq_floor k hk]

/-- The executable LBP code agrees with the source-text real-trigonometry
code at every interior pixel. -/
lemma lbpCodeReal_eq_lbpCode (img : GrayImage) (i j : ℕ)
    (hi : 2 ≤ i) (hj : 2 ≤ j) :
    lbpCodeReal img i j = lbpCode img i j := by
  unfold lbpCodeReal lbpCode
  congr 1
  apply List.foldl_ext
  intro code k hk
  rw [List.mem_range] at hk
  rw [truncInt_add_cos j hj k hk, truncInt_sub_sin i hi k hk]

lemma sum_map_range (f : ℕ → ℚ) (n : ℕ) :
    ((List.range n).map f).sum = ∑ i ∈ Finset.range n, f i := by
  induction n with
  | zero => simp
  | succ m ih => rw [List.range_succ, Finset.sum_range_succ, ← ih]; simp

lemma sum_count_range (codes : List ℕ) (n : ℕ) (h : ∀ c ∈ codes, c < n) :
    ∑ v ∈ Finset.range n, (codes.count v : ℚ) = codes.length := by
  induction codes with
  | nil => simp
  | cons c cs ih =>
    have hc : c ∈ Finset.range n := Finset.mem_range.2 (h c (List.mem_cons_self c cs))
    have ih2 := ih (fun x hx => h x (List.mem_cons_of_mem c hx))
    have hsplit : ∀ v, ((c :: cs).count v : ℚ)
        = (cs.count v : ℚ) + (if c = v then 1 else 0) := by
      intro v
      by_cases hv : c = v
      · subst hv; simp [List.count_cons]
      · have hv2 : ¬ v = c := fun hh => hv hh.symm
        simp [List.count_cons, hv, hv2]
    calc ∑ v ∈ Finset.range n, ((c :: cs).count v : ℚ)
        = ∑ v ∈ Finset.range n, ((cs.count v : ℚ) + (if c = v then 1 else 0)) := by
          exact Finset.sum_congr rfl (fun v _ => hsplit v)
      _ = (cs.length : ℚ) + 1 := by
          rw [Finset.sum_add_distrib, ih2, Finset.sum_ite_eq _ c (fun _ => (1 : ℚ)),
            if_pos hc]
      _ = ((c :: cs).length : ℚ) := by simp

lemma sum_map_div (l : List ℚ) (s : ℚ) :
    (l.map (fun q => q / s)).sum = l.sum / s := by
  induction l with
  | nil => simp
  | cons x xs ih => simp [ih, add_div]

/-- Every LBP code is an 8-bit value (the `np.uint8` store). -/
lemma lbpCode_lt_256 (img : GrayImage) (i j : ℕ) : lbpCode img i j < 256 :=
  Nat.mod_lt _ (by norm_num)

lemma lbpInterior_length (img : GrayImage) :
    (lbpInterior img).length = (imgHeight img - 4) * (imgWidth img - 4) := by
  unfold lbpInterior
  rw [List.length_flatMap]
  have : ∀ a : ℕ, ((List.range (imgWidth img - 4)).map
      (fun b => lbpCode img (a + 2) (b + 2))).length = imgWidth img - 4 := by
    intro a; rw [List.length_map, List.length_range]
  calc ((List.range (imgHeight img - 4)).map _).sum
      = ((List.range (imgHeight img - 4)).map (fun _ => imgWidth img - 4)).sum := by
        apply congrArg
        apply List.map_congr_left
        intro a _
        simp [this a]
    _ = (imgHeight img - 4) * (imgWidth img - 4) := by
        rw [List.map_const', List.sum_replicate, List.length_range, smul_eq_mul]

lemma lbpInterior_mem_lt (img : GrayImage) :
    ∀ c ∈ lbpInterior img, c < 256 := by
  intro c hc
  unfold lbpInterior at hc
  simp only [List.mem_flatMap, List.mem_map] at hc
  obtain ⟨a, _, b, _, rfl⟩ := hc
  exact lbpCode_lt_256 img (a + 2) (b + 2)

lemma getD_zipWith (f : ℚ → ℚ → ℚ) :
    ∀ (a b : List ℚ) (i : ℕ), i < a.length → i < b.length →
      (List.zipWith f a b).getD i 0 = f (a.getD i 0) (b.getD i 0)
  | [], _, i, h1, _ => by simp at h1
  | _ :: _, [], i, _, h2 => by simp at h2
  | x :: xs, y :: ys, 0, _, _ => by simp
  | x :: xs, y :: ys, i + 1, h1, h2 => by
    simp only [List.zipWith_cons_cons, List.getD_cons_succ]
    exact getD_zipWith f xs ys i (by simpa using h1) (by simpa using h2)

lemma getD_range_map (f : ℕ → ℚ) (n i : ℕ) (h : i < n) :
    (((List.range n).map f).getD i 0) = f i := by
  rw [List.getD_eq_getElem?_getD, List.getElem?_map]
  simp [List.getElem?_range h]

lemma sumSq_eq_sum_range (l : List ℚ) :
    sumSq l = ∑ i ∈ Finset.range l.length, (l.getD i 0) ^ 2 := by
  induction l with
  | nil => simp [sumSq]
  | cons x xs ih =>
    rw [List.length_cons, Finset.sum_range_succ']
    simp only [List.getD_cons_succ, List.getD_cons_zero]
    rw [← ih]
    simp [sumSq, sq]
    ring

lemma length_bsub_eq (a b : List ℚ) (h : a.length = b.length) :
    bsub a b = some (List.zipWith (fun x y => x - y) a b) := by
  simp [bsub, h]

lemma length_weightsOf (e : List ℚ) : (weightsOf e).length = e.length := by
  simp [weightsOf]

lemma length_zip_sub (a b : List ℚ) (h : a.length = b.length) :
    (List.zipWith (fun x y => x - y) a b).length = a.length := by
  rw [List.length_zipWith, h, min_self]

lemma sumSq_zip_sub (a b : List ℚ) (h : a.length = b.length) :
    sumSq (List.zipWith (fun x y => x - y) a b)
      = ∑ i ∈ Finset.range a.length, (a.getD i 0 - b.getD i 0) ^ 2 := by
  rw [sumSq_eq_sum_range, length_zip_sub a b h]
  refine Finset.sum_congr rfl (fun i hi => ?_)
  rw [Finset.mem_range] at hi
  rw [getD_zipWith _ a b i hi (h ▸ hi)]

lemma sumSq_zip_weighted (a b : List ℚ) (h : a.length = b.length) :
    sumSq (List.zipWith (fun x y => x * y) (weightsOf a)
      (List.zipWith (fun x y => x - y) a b))
      = ∑ i ∈ Finset.range a.length,
          ((if 96 ≤ i then (2 : ℚ) else 1) * (a.getD i 0 - b.getD i 0)) ^ 2 := by
  have hzlen := length_zip_sub a b h
  rw [sumSq_eq_sum_range, List.length_zipWith, length_weightsOf, hzlen, min_self]
  refine Finset.sum_congr rfl (fun i hi => ?_)
  rw [Finset.mem_range] at hi
  rw [getD_zipWith _ _ _ i (by rw [length_weightsOf]; exact hi) (by rw [hzlen]; exact hi),
    getD_zipWith _ a b i hi (h ▸ hi)]
  unfold weightsOf
  rw [getD_range_map _ _ _ hi]

/-- C7: for present encodings of equal dimension the similarity engine is
the L2 norm of the difference under the embedding method and the weighted
L2 norm (weight 2 from index 96 on, weight 1 below) under every other
method; an absent input yields `+∞`; and the result is always nonnegative
(a real `≥ 0` or `+∞`). -/
theorem c7_similarity_engine :
    (∀ a b : List ℚ, a.length = b.length →
        compare_faces (some a) (some b) .deep_learning
          = ((Real.sqrt ((∑ i ∈ Finset.range a.length,
              (a.getD i 0 - b.getD i 0) ^ 2 : ℚ)) : ℝ) : EReal)) ∧
    (∀ a b : List ℚ, ∀ m : Method, a.length = b.length → m ≠ .deep_learning →
        compare_faces (some a) (some b) m
          = ((Real.sqrt ((∑ i ∈ Finset.range a.length,
              ((if 96 ≤ i then (2 : ℚ) else 1) * (a.getD i 0 - b.getD i 0)) ^ 2 : ℚ)) : ℝ)
            : EReal)) ∧
    (∀ b m, compare_faces none b m = ⊤) ∧
    (∀ a m, compare_faces a none m = ⊤) ∧
    (∀ a b m, 0 ≤ compare_faces a b m) := by
  refine ⟨?_, ?_, ?_, ?_, ?_⟩
  · intro a b h
    calc compare_faces (some a) (some b) .deep_learning
        = ((Real.sqrt ((sumSq (List.zipWith (fun x y => x - y) a b) : ℚ)) : ℝ) : EReal) := by
          rw [compare_faces, if_pos rfl, length_bsub_eq a b h]
      _ = _ := by rw [sumSq_zip_sub a b h]
  · intro a b m h hm
    have hzlen := length_zip_sub a b h
    have hb : bmul (weightsOf a) (List.zipWith (fun x y => x - y) a b)
        = some (List.zipWith (fun x y => x * y) (weightsOf a)
            (List.zipWith (fun x y => x - y) a b)) := by
      simp [bmul, length_weightsOf, hzlen]
    calc compare_faces (some a) (some b) m
        = ((Real.sqrt ((sumSq (List.zipWith (fun x y => x * y) (weightsOf a)
            (List.zipWith (fun x y => x - y) a b)) : ℚ)) : ℝ) : EReal) := by
          rw [compare_faces, if_neg hm]
          simp only [length_bsub_eq a b h, hb]
      _ = _ := by rw [sumSq_zip_weighted a b h]
  · intro b m; cases b <;> rfl
  · intro a m; cases a <;> rfl
  · intro a b m
    cases a with
    | none => cases b <;> exact le_top
    | some e1 =>
      cases b with
      | none => exact le_top
      | some e2 =>
        rw [compare_faces]
        by_cases hm : m = Method.deep_learning
        · rw [if_pos hm]
          cases hb : bsub e1 e2 with
          | none => simp only [hb]; exact le_top
          | some d => simp only [hb]; exact EReal.coe_nonneg.2 (Real.sqrt_nonneg _)
        · rw [if_neg hm]
          cases hb : bsub e1 e2 with
          | none => simp only [hb]; exact le_top
          | some d =>
            cases hw : bmul (weightsOf e1) d with
            | none => simp only [hb, hw]; exact le_top
            | some wd =>
              simp only [hb, hw]
              exact EReal.coe_nonneg.2 (Real.sqrt_nonneg _)

/-- Witness for C7 at concrete inputs: `[1, 2]` against `[1, 1]` under the
embedding method has distance `√((1-1)² + (2-1)²) = 1`, and an absent
second input yields `+∞`. -/
theorem c7_witness :
    compare_faces (some [1, 2]) (some [1, 1]) .deep_learning = ((1 : ℝ) : EReal) ∧
    compare_faces (some [1]) none .feature_based = ⊤ := by
  constructor
  · have h := c7_similarity_engine.1 [1, 2] [1, 1] rfl
    rw [h]
    norm_num [Finset.sum_range_succ]
  · exact c7_similarity_engine.2.2.2.1 (some [1]) .feature_based

lemma attemptBest_eq_top (dets : List Detection) (reg : List ℚ) (rm : Method)
    (h : ∀ d ∈ dets, ¬(d.cropNonempty = true ∧ 100 < d.w ∧ 100 < d.h)
      ∨ d.extract.1 = none) :
    attemptBest dets reg rm = ⊤ := by
  unfold attemptBest
  suffices H : ∀ (l : List Detection) (acc : EReal),
      (∀ d ∈ l, ¬(d.cropNonempty = true ∧ 100 < d.w ∧ 100 < d.h)
        ∨ d.extract.1 = none) →
      (l.foldl (fun best d =>
        if d.cropNonempty = true ∧ 100 < d.w ∧ 100 < d.h then
          match d.extract with
          | (some enc, dm) => min best (candDistance reg rm enc dm)
          | (none, _) => best
        else best) acc) = acc by
    exact H dets ⊤ h
  intro l
  induction l with
  | nil => intro acc _; rfl
  | cons d ds ih =>
    intro acc hl
    rw [List.foldl_cons]
    have hstep : (if d.cropNonempty = true ∧ 100 < d.w ∧ 100 < d.h then
        match d.extract with
        | (some enc, dm) => min acc (candDistance reg rm enc dm)
        | (none, _) => acc
      else acc) = acc := by
      rcases hl d (List.mem_cons_self d ds) with hg | he
      · rw [if_neg hg]
      · by_cases hg : d.cropNonempty = true ∧ 100 < d.w ∧ 100 < d.h
        · rw [if_pos hg]
          rcases hde : d.extract with ⟨o, m⟩
          rw [hde] at he
          simp only at he
          subst he
          rfl
        · rw [if_neg hg]
    rw [hstep]
    exact ih acc (fun x hx => hl x (List.mem_cons_of_mem d hx))

lemma attemptBest_lt_exists (dets : List Detection) (reg : List ℚ) (rm : Method)
    (thr : EReal) (h : attemptBest dets reg rm < thr) :
    ∃ d ∈ dets, (d.cropNonempty = true ∧ 100 < d.w ∧ 100 < d.h)
      ∧ d.extract.1.isSome := by
  unfold attemptBest at h
  suffices H : ∀ (l : List Detection) (acc : EReal),
      (l.foldl (fun best d =>
        if d.cropNonempty = true ∧ 100 < d.w ∧ 100 < d.h then
          match d.extract with
          | (some enc, dm) => min best (candDistance reg rm enc dm)
          | (none, _) => best
        else best) acc) < thr →
      acc < thr ∨ ∃ d ∈ l, (d.cropNonempty = true ∧ 100 < d.w ∧ 100 < d.h)
        ∧ d.extract.1.isSome by
    rcases H dets ⊤ h with htop | hex
    · exact absurd htop not_top_lt
    · exact hex
  intro l
  induction l with
  | nil => intro acc hacc; exact Or.inl hacc
  | cons d ds ih =>
    intro acc hacc
    rw [List.foldl_cons] at hacc
    by_cases hg : d.cropNonempty = true ∧ 100 < d.w ∧ 100 < d.h
    · rcases hde : d.extract with ⟨o, m⟩
      cases o with
      | none =>
        rw [if_pos hg, hde] at hacc
        rcases ih _ hacc with h1 | h2
        · exact Or.inl h1
        · exact Or.inr (by
            obtain ⟨x, hx, hx2⟩ := h2
            exact ⟨x, List.mem_cons_of_mem d hx, hx2⟩)
      | some enc =>
        refine Or.inr ⟨d, List.mem_cons_self d ds, hg, ?_⟩
        rw [hde]
        rfl
    · rw [if_neg hg] at hacc
      rcases ih _ hacc with h1 | h2
      · exact Or.inl h1
      · exact Or.inr (by
          obtain ⟨x, hx, hx2⟩ := h2
          exact ⟨x, List.mem_cons_of_mem d hx, hx2⟩)

/-- Characterization of the attempt loop of `verify_user`, for any window
of `n` attempts starting at index `i`: if some attempt in the window beats
the threshold, the loop returns `True` at the first such attempt and logs a
success event carrying its best distance; otherwise it returns `False` and
logs a failure event carrying `max_attempts`. -/
lemma verifyLoop_spec (st : SysState) (u : String) (reg : List ℚ)
    (rm : Method) (maxA : ℕ) (frames : ℕ → Option (List Detection)) :
    ∀ (n i : ℕ),
      ((∃ j, i ≤ j ∧ j < i + n
          ∧ attBest reg rm frames j < ((st.threshold : ℝ) : EReal)) →
        ∃ j, i ≤ j ∧ j < i + n
          ∧ attBest reg rm frames j < ((st.threshold : ℝ) : EReal)
          ∧ (∀ l, i ≤ l → l < j
              → ¬ attBest reg rm frames l < ((st.threshold : ℝ) : EReal))
          ∧ verifyLoop st u reg rm maxA frames i n
            = (true, log_verification st
                ⟨u, .verification, true, .distance (attBest reg rm frames j)⟩)) ∧
      ((∀ j, i ≤ j → j < i + n
          → ¬ attBest reg rm frames j < ((st.threshold : ℝ) : EReal)) →
        verifyLoop st u reg rm maxA frames i n
          = (false, log_verification st
              ⟨u, .verification, false, .attempts maxA⟩)) := by
  intro n
  induction n with
  | zero =>
    intro i
    constructor
    · rintro ⟨j, hij, hj, _⟩
      omega
    · intro _
      rfl
  | succ m ih =>
    intro i
    rcases hf : frames i with _ | dets
    · have htop : attBest reg rm frames i = ⊤ := by unfold attBest; rw [hf]
      have hunf : verifyLoop st u reg rm maxA frames i (m + 1)
          = verifyLoop st u reg rm maxA frames (i + 1) m := by
        rw [verifyLoop]
        simp only [hf]
      constructor
      · rintro ⟨j, hij, hjm, hlt⟩
        have hji : j ≠ i := by
          intro he
          rw [he, htop] at hlt
          exact not_top_lt hlt
        obtain ⟨j', h1, h2, h3, hmin, heq⟩ := (ih (i + 1)).1
          ⟨j, by omega, by omega, hlt⟩
        refine ⟨j', by omega, by omega, h3, ?_, by rw [hunf]; exact heq⟩
        intro l hl1 hl2
        rcases Nat.eq_or_lt_of_le hl1 with he | hgt
        · rw [← he, htop]
          exact not_top_lt
        · exact hmin l hgt hl2
      · intro hall
        rw [hunf]
        exact (ih (i + 1)).2 (fun j h1 h2 => hall j (by omega) (by omega))
    · have hbest : attBest reg rm frames i = attemptBest dets reg rm := by
        unfold attBest
        rw [hf]
      by_cases hacc : attemptBest dets reg rm < ((st.threshold : ℝ) : EReal)
      · have hunf : verifyLoop st u reg rm maxA frames i (m + 1)
            = (true, log_verification st
                ⟨u, .verification, true, .distance (attemptBest dets reg rm)⟩) := by
          rw [verifyLoop]
          simp only [hf]
          rw [if_pos hacc]
        constructor
        · intro _
          refine ⟨i, le_refl i, by omega, by rw [hbest]; exact hacc, ?_, ?_⟩
          · intro l hl1 hl2
            omega
          · rw [hunf, hbest]
        · intro hall
          exact absurd (by rw [hbest]; exact hacc) (hall i (le_refl i) (by omega))
      · have hunf : verifyLoop st u reg rm maxA frames i (m + 1)
            = verifyLoop st u reg rm maxA frames (i + 1) m := by
          rw [verifyLoop]
          simp only [hf]
          rw [if_neg hacc]
        constructor
        · rintro ⟨j, hij, hjm, hlt⟩
          have hji : j ≠ i := by
            intro he
            rw [he, hbest] at hlt
            exact hacc hlt
          obtain ⟨j', h1, h2, h3, hmin, heq⟩ := (ih (i + 1)).1
            ⟨j, by omega, by omega, hlt⟩
          refine ⟨j', by omega, by omega, h3, ?_, by rw [hunf]; exact heq⟩
          intro l hl1 hl2
          rcases Nat.eq_or_lt_of_le hl1 with he | hgt
          · rw [← he, hbest]
            exact hacc
          · exact hmin l hgt hl2
        · intro hall
          rw [hunf]
          exact (ih (i + 1)).2 (fun j h1 h2 => hall j (by omega) (by omega))

lemma verify_user_unfold (st : SysState) (u : String) (maxA : ℕ)
    (frames : ℕ → Option (List Detection)) (idr : Identity)
    (hl : st.known_faces.lookup u = some idr) (hc : st.camera_available = true) :
    verify_user st u maxA frames
      = verifyLoop st u idr.encoding idr.method maxA frames 0 maxA := by
  rw [verify_user]
  simp only [hl]
  rw [if_neg (by rw [hc]; exact fun h => Bool.noConfusion h)]

lemma log_verification_logs (st : SysState) (e : AuditEvent) :
    (log_verification st e).verification_logs = st.verification_logs ++ [e] := by
  simp only [log_verification, save_logs]
  split <;> rfl

lemma compare_dl_single (x y : ℚ) :
    compare_faces (some [x]) (some [y]) .deep_learning
      = ((Real.sqrt (((x - y) * (x - y) : ℚ)) : ℝ) : EReal) := by
  rw [compare_faces, if_pos rfl]
  simp only [show bsub [x] [y] = some [x - y] from by simp [bsub], sumSq,
    List.map_cons, List.map_nil, List.sum_cons, List.sum_nil, add_zero]

lemma compare_fb_single (x y : ℚ) :
    compare_faces (some [x]) (some [y]) .feature_based
      = ((Real.sqrt (((x - y) * (x - y) : ℚ)) : ℝ) : EReal) := by
  rw [compare_faces, if_neg (by decide)]
  have hw : weightsOf [x] = [1] := by
    simp [weightsOf, List.range_succ]
  simp only [show bsub [x] [y] = some [x - y] from by simp [bsub], hw,
    show bmul [1] [x - y] = some [1 * (x - y)] from by simp [bmul], sumSq,
    List.map_cons, List.map_nil, List.sum_cons, List.sum_nil, add_zero, one_mul]

/-- C5: with an enrolled identity and the camera available, verification
accepts exactly when some attempt's best distance is strictly below the
configured threshold; it then stops at the first such attempt and logs a
success event carrying that winning distance, while exhausting all
`max_attempts` without such an attempt returns reject and logs a failure
event carrying the attempt count. -/
theorem c5_verification_decision :
    ∀ (st : SysState) (u : String) (maxA : ℕ)
      (frames : ℕ → Option (List Detection)) (idr : Identity),
      st.known_faces.lookup u = some idr →
      st.camera_available = true →
      (((∃ j, j < maxA
          ∧ attBest idr.encoding idr.method frames j < ((st.threshold : ℝ) : EReal)) →
        ∃ j, j < maxA
          ∧ attBest idr.encoding idr.method frames j < ((st.threshold : ℝ) : EReal)
          ∧ (∀ l, l < j
              → ¬ attBest idr.encoding idr.method frames l < ((st.threshold : ℝ) : EReal))
          ∧ verify_user st u maxA frames
            = (true, log_verification st ⟨u, .verification, true,
                .distance (attBest idr.encoding idr.method frames j)⟩)) ∧
      ((∀ j, j < maxA
          → ¬ attBest idr.encoding idr.method frames j < ((st.threshold : ℝ) : EReal)) →
        verify_user st u maxA frames
          = (false, log_verification st ⟨u, .verification, false, .attempts maxA⟩))) := by
  intro st u maxA frames idr hl hc
  have hu := verify_user_unfold st u maxA frames idr hl hc
  have hspec := verifyLoop_spec st u idr.encoding idr.method maxA frames maxA 0
  constructor
  · rintro ⟨j, hj, hlt⟩
    obtain ⟨j', h1, h2, h3, hmin, heq⟩ := hspec.1 ⟨j, by omega, by omega, hlt⟩
    exact ⟨j', by omega, h3, fun l hl2 => hmin l (by omega) hl2, by rw [hu]; exact heq⟩
  · intro hall
    rw [hu]
    exact hspec.2 (fun j h1 h2 => hall j (by omega))

/-- C10: an attempt in which no detection passes the nonempty-crop and
size gates with a successful extraction keeps its best distance at the
initial `+∞`, which is never strictly below any real threshold, so such an
attempt cannot accept; conversely any attempt whose best distance beats a
threshold contains a gate-passing detection with an extracted encoding. -/
theorem c10_accept_needs_candidate :
    (∀ (dets : List Detection) (reg : List ℚ) (rm : Method),
        (∀ d ∈ dets, ¬(d.cropNonempty = true ∧ 100 < d.w ∧ 100 < d.h)
          ∨ d.extract.1 = none) →
        attemptBest dets reg rm = ⊤
          ∧ ∀ t : ℝ, ¬ attemptBest dets reg rm < ((t : ℝ) : EReal)) ∧
    (∀ (dets : List Detection) (reg : List ℚ) (rm : Method) (thr : EReal),
        attemptBest dets reg rm < thr →
        ∃ d ∈ dets, (d.cropNonempty = true ∧ 100 < d.w ∧ 100 < d.h)
          ∧ d.extract.1.isSome) := by
  constructor
  · intro dets reg rm h
    have ht := attemptBest_eq_top dets reg rm h
    refine ⟨ht, fun t => ?_⟩
    rw [ht]
    exact not_top_lt
  · intro dets reg rm thr h
    exact attemptBest_lt_exists dets reg rm thr h

/-- Witness for C10: a 50x50 detection fails the size gate, so the attempt
keeps best distance `+∞` and cannot beat the threshold `0.6`. -/
theorem c10_witness :
    attemptBest [⟨50, 50, true, (some [1], .deep_learning), none⟩] [0]
        .deep_learning = ⊤ ∧
    ¬ attemptBest [⟨50, 50, true, (some [1], .deep_learning), none⟩] [0]
        .deep_learning < ((3 / 5 : ℝ) : EReal) := by
  have h := c10_accept_needs_candidate.1
    [⟨50, 50, true, (some [1], .deep_learning), none⟩] [0] .deep_learning
    (by
      intro d hd
      rw [List.mem_singleton] at hd
      subst hd
      left
      rintro ⟨_, hw, _⟩
      exact absurd hw (by decide))
  exact ⟨h.1, h.2 (3 / 5)⟩

/-- C2 (amended): verification that exhausts all attempts appends a failure
audit event (carrying the attempt count) to the log in the state it
reports; but an enrollment that times out, and an enrollment whose
aggregation finds no valid samples, return failure with the state — logs
and identity store — completely unchanged, appending no audit event. -/
theorem c2_failure_logging :
    (∀ (st : SysState) (u : String) (maxA : ℕ)
        (frames : ℕ → Option (List Detection)) (idr : Identity),
        st.known_faces.lookup u = some idr →
        st.camera_available = true →
        (∀ j, j < maxA
          → ¬ attBest idr.encoding idr.method frames j < ((st.threshold : ℝ) : EReal)) →
        verify_user st u maxA frames
          = (false, log_verification st ⟨u, .verification, false, .attempts maxA⟩)
        ∧ (log_verification st ⟨u, .verification, false, .attempts maxA⟩).verification_logs
          = st.verification_logs ++ [⟨u, .verification, false, .attempts maxA⟩]) ∧
    (∀ (st : SysState) (u : String) (n : ℕ) (polls : List RegPoll),
        st.camera_available = true →
        regLoop n polls [] = .timedOut →
        register_user st u n polls = some (false, st)) ∧
    (∀ (st : SysState) (u : String) (n : ℕ) (polls : List RegPoll)
        (samples : List (List ℚ × Method)),
        st.camera_available = true →
        regLoop n polls [] = .done samples →
        aggregate samples = none →
        register_user st u n polls = some (false, st)) := by
  refine ⟨?_, ?_, ?_⟩
  · intro st u maxA frames idr hl hc hall
    refine ⟨?_, log_verification_logs st _⟩
    have hu := verify_user_unfold st u maxA frames idr hl hc
    rw [hu]
    exact (verifyLoop_spec st u idr.encoding idr.method maxA frames maxA 0).2
      (fun j h1 h2 => hall j (by omega))
  · intro st u n polls hc hreg
    rw [register_user, if_neg (by rw [hc]; exact fun h => Bool.noConfusion h)]
    simp only [hreg]
  · intro st u n polls samples hc hreg hagg
    rw [register_user, if_neg (by rw [hc]; exact fun h => Bool.noConfusion h)]
    simp only [hreg, hagg]

/-- Counterexample to C2 as stated: an enrollment that hits the 30-second
timeout returns failure with the state unchanged — in particular the
returned audit log is still empty, so no failure AuditEvent was appended. -/
theorem c2_counterexample :
    register_user stA "u" 3 [⟨31, none⟩] = some (false, stA)
      ∧ stA.verification_logs = [] :=
  ⟨rfl, rfl⟩

/-- Witness for C2 (amended): a one-attempt verification against `u` whose
only frame capture fails exhausts its attempts and logs the failure; the
timed-out enrollment returns failure on the unchanged state. -/
theorem c2_witness :
    verify_user stA "u" 1 (fun _ => none)
      = (false, log_verification stA ⟨"u", .verification, false, .attempts 1⟩) ∧
    register_user stA "u" 3 [⟨31, none⟩] = some (false, stA) := by
  constructor
  · exact (c2_failure_logging.1 stA "u" 1 (fun _ => none) idr0 rfl rfl
      (fun j hj => by
        have h : attBest idr0.encoding idr0.method (fun _ => none) j = ⊤ := rfl
        rw [h]
        exact not_top_lt)).1
  · exact c2_failure_logging.2.1 stA "u" 3 [⟨31, none⟩] rfl rfl

/-- C4 (amended): when the stored and freshly-extracted method tags differ,
`verify_user` compares the two encodings directly with the feature-based
weighted distance — no re-extraction of either side happens — and when the
two encodings additionally have incompatible (non-broadcastable)
dimensions, this direct mixed-method comparison degrades to `+∞`. -/
theorem c4_mismatch_direct :
    (∀ (reg enc : List ℚ) (rm dm : Method), rm ≠ dm →
        candDistance reg rm enc dm
          = compare_faces (some enc) (some reg) .feature_based) ∧
    (∀ (reg enc : List ℚ) (rm dm : Method), rm ≠ dm →
        enc.length ≠ reg.length → enc.length ≠ 1 → reg.length ≠ 1 →
        candDistance reg rm enc dm = ⊤) ∧
    (∀ (reg enc : List ℚ) (rm : Method),
        candDistance reg rm enc rm = compare_faces (some enc) (some reg) rm) := by
  refine ⟨?_, ?_, ?_⟩
  · intro reg enc rm dm hne
    rw [candDistance, if_neg hne]
  · intro reg enc rm dm hne hlen h1 h2
    rw [candDistance, if_neg hne]
    have hb : bsub enc reg = none := by
      rw [bsub, if_neg hlen, if_neg h1, if_neg h2]
    rw [compare_faces, if_neg (by decide)]
    simp only [hb]
  · intro reg enc rm
    rw [candDistance, if_pos rfl]

/-- Counterexample to C4 as stated: for the detection `d4` (fresh encoding
`[1]` tagged embedding, fallback re-extraction `[0]`) against the stored
feature-based encoding `[0]`, the code computes distance 1 (direct
mixed-method weighted comparison of `[1]` vs `[0]`) while the spec's
re-derivation policy would compute distance 0 (comparing the re-extracted
`[0]` vs `[0]`). -/
theorem c4_counterexample :
    attemptBest [d4] [0] .feature_based = ((1 : ℝ) : EReal) ∧
    specDistanceC4 [0] .feature_based d4 = ((0 : ℝ) : EReal) ∧
    ((1 : ℝ) : EReal) ≠ ((0 : ℝ) : EReal) := by
  refine ⟨?_, ?_, EReal.coe_ne_coe_iff.2 (by norm_num)⟩
  · have hc : candDistance [0] .feature_based [1] .deep_learning
        = ((1 : ℝ) : EReal) := by
      rw [candDistance, if_neg (by decide), compare_fb_single]
      rw [show (((1 : ℚ) - 0) * ((1 : ℚ) - 0) : ℚ) = 1 by norm_num]
      norm_num [Real.sqrt_one]
    calc attemptBest [d4] [0] .feature_based
        = min ⊤ (candDistance [0] .feature_based [1] .deep_learning) := rfl
      _ = ((1 : ℝ) : EReal) := by rw [hc]; exact min_eq_right le_top
  · calc specDistanceC4 [0] .feature_based d4
        = compare_faces (some [0]) (some [0]) .feature_based := rfl
      _ = ((0 : ℝ) : EReal) := by
          rw [compare_fb_single]
          norm_num [Real.sqrt_zero]

/-- Witness for C4 (amended) at concrete inputs: the mixed-method candidate
distance is the direct feature-based comparison of the raw encodings, and a
3-vs-2-dimensional mixed comparison is `+∞`. -/
theorem c4_witness :
    candDistance [0] .feature_based [1] .deep_learning
      = compare_faces (some [1]) (some [0]) .feature_based ∧
    candDistance [0, 0] .feature_based [1, 2, 3] .deep_learning = ⊤ := by
  constructor
  · exact c4_mismatch_direct.1 [0] [1] .feature_based .deep_learning (by decide)
  · exact c4_mismatch_direct.2.1 [0, 0] [1, 2, 3] .feature_based .deep_learning
      (by decide) (by decide) (by decide) (by decide)

lemma attBest_frames59 (i : ℕ) :
    attBest idr0.encoding idr0.method frames59 i = ((59 / 100 : ℝ) : EReal) := by
  have hc : candDistance [0] .deep_learning [59 / 100] .deep_learning
      = ((59 / 100 : ℝ) : EReal) := by
    rw [candDistance, if_pos rfl, compare_dl_single]
    rw [show ((((59 : ℚ) / 100 - 0) * ((59 : ℚ) / 100 - 0) : ℚ) : ℝ)
      = (59 / 100 : ℝ) ^ 2 by push_cast; ring]
    rw [Real.sqrt_sq (by norm_num)]
  calc attBest idr0.encoding idr0.method frames59 i
      = min ⊤ (candDistance [0] .deep_learning [59 / 100] .deep_learning) := rfl
    _ = _ := by rw [hc]; exact min_eq_right le_top

lemma attBest_frames60 (i : ℕ) :
    attBest idr0.encoding idr0.method frames60 i = ((3 / 5 : ℝ) : EReal) := by
  have hc : candDistance [0] .deep_learning [3 / 5] .deep_learning
      = ((3 / 5 : ℝ) : EReal) := by
    rw [candDistance, if_pos rfl, compare_dl_single]
    rw [show ((((3 : ℚ) / 5 - 0) * ((3 : ℚ) / 5 - 0) : ℚ) : ℝ)
      = (3 / 5 : ℝ) ^ 2 by push_cast; ring]
    rw [Real.sqrt_sq (by norm_num)]
  calc attBest idr0.encoding idr0.method frames60 i
      = min ⊤ (candDistance [0] .deep_learning [3 / 5] .deep_learning) := rfl
    _ = _ := by rw [hc]; exact min_eq_right le_top

/-- Witness for C5 at threshold `0.6`: a best distance of `0.59` accepts
immediately (success logged with the winning distance), while a best
distance of `0.60` rejects, exhausting the single attempt (failure logged
with the attempt count). -/
theorem c5_witness :
    verify_user stA "u" 3 frames59
      = (true, log_verification stA
          ⟨"u", .verification, true, .distance ((59 / 100 : ℝ) : EReal)⟩) ∧
    verify_user stA "u" 1 frames60
      = (false, log_verification stA ⟨"u", .verification, false, .attempts 1⟩) := by
  have hthr : stA.threshold = 3 / 5 := rfl
  constructor
  · have hlt : attBest idr0.encoding idr0.method frames59 0
        < ((stA.threshold : ℝ) : EReal) := by
      rw [attBest_frames59 0, hthr]
      exact EReal.coe_lt_coe_iff.2 (by norm_num)
    obtain ⟨j, hj, hjlt, hmin, heq⟩ :=
      (c5_verification_decision stA "u" 3 frames59 idr0 rfl rfl).1
        ⟨0, by norm_num, hlt⟩
    have hj0 : j = 0 := by
      by_contra hne
      exact hmin 0 (by omega) hlt
    rw [hj0] at heq
    rw [attBest_frames59 0] at heq
    exact heq
  · refine (c5_verification_decision stA "u" 1 frames60 idr0 rfl rfl).2 ?_
    intro j hj
    rw [attBest_frames60 j, hthr]
    intro hlt
    exact absurd (EReal.coe_lt_coe_iff.1 hlt) (by norm_num)

lemma log_verification_known_faces (st : SysState) (e : AuditEvent) :
    (log_verification st e).known_faces = st.known_faces := by
  simp only [log_verification, save_logs]
  split <;> rfl

lemma regLoop_accept (n : ℕ) (poll : RegPoll) (rest : List RegPoll)
    (d : Detection) (ds : List Detection) (samples : List (List ℚ × Method))
    (enc : List ℚ) (m : Method)
    (hlt : samples.length < n) (hel : poll.elapsed ≤ 30)
    (hf : poll.frame = some (d :: ds)) (hcrop : d.cropNonempty = true)
    (hw : 100 < d.w) (hh : 100 < d.h) (hex : d.extract = (some enc, m)) :
    regLoop n (poll :: rest) samples = regLoop n rest (samples ++ [(enc, m)]) := by
  rw [regLoop]
  rw [if_neg (by omega)]
  simp only [hf]
  rw [if_neg (by omega), if_pos hcrop, if_pos ⟨hw, hh⟩]
  simp only [hex]

lemma regLoop_reject_size (n : ℕ) (poll : RegPoll) (rest : List RegPoll)
    (d : Detection) (ds : List Detection) (samples : List (List ℚ × Method))
    (hlt : samples.length < n) (hel : poll.elapsed ≤ 30)
    (hf : poll.frame = some (d :: ds)) (hsize : d.w ≤ 100 ∨ d.h ≤ 100) :
    regLoop n (poll :: rest) samples = regLoop n rest samples := by
  rw [regLoop]
  rw [if_neg (by omega)]
  simp only [hf]
  rw [if_neg (by omega)]
  by_cases hcrop : d.cropNonempty = true
  · rw [if_pos hcrop, if_neg (by rintro ⟨h1, h2⟩; omega)]
  · rw [if_neg hcrop]

lemma aggregate_dl (samples : List (List ℚ × Method)) (hne : samples ≠ [])
    (hdl : ∃ s ∈ samples, s.2 = Method.deep_learning) :
    aggregate samples
      = some (meanVecs ((samples.filter
          (fun s => s.2 == Method.deep_learning)).map (fun s => s.1)),
        .deep_learning) := by
  have hdlne : (samples.filter (fun s => s.2 == Method.deep_learning)).map
      (fun s => s.1) ≠ [] := by
    obtain ⟨s, hs, hm⟩ := hdl
    intro hc
    rw [List.map_eq_nil_iff, List.filter_eq_nil_iff] at hc
    exact hc s hs (by rw [hm]; rfl)
  rw [aggregate, if_neg hne]
  simp only []
  rw [if_pos hdlne]

lemma aggregate_fb (samples : List (List ℚ × Method)) (hne : samples ≠ [])
    (hnodl : ¬ ∃ s ∈ samples, s.2 = Method.deep_learning)
    (hfb : ∃ s ∈ samples, s.2 = Method.feature_based) :
    aggregate samples
      = some (meanVecs ((samples.filter
          (fun s => s.2 == Method.feature_based)).map (fun s => s.1)),
        .feature_based) := by
  have hdlnil : (samples.filter (fun s => s.2 == Method.deep_learning)).map
      (fun s => s.1) = [] := by
    rw [List.map_eq_nil_iff, List.filter_eq_nil_iff]
    intro s hs hb
    exact hnodl ⟨s, hs, by simpa using hb⟩
  have hfbne : (samples.filter (fun s => s.2 == Method.feature_based)).map
      (fun s => s.1) ≠ [] := by
    obtain ⟨s, hs, hm⟩ := hfb
    intro hc
    rw [List.map_eq_nil_iff, List.filter_eq_nil_iff] at hc
    exact hc s hs (by rw [hm]; rfl)
  rw [aggregate, if_neg hne]
  simp only []
  rw [if_neg (fun hcc => hcc hdlnil), if_pos hfbne]

/-- C1 (amended): a completed enrollment commits the method that produced
ANY sample over the embedding method — the committed tag is `embedding`
exactly when at least one embedding-tagged sample exists, regardless of
majority, else `feature-based`; and with zero valid samples the enrollment
fails and the state (hence the Identity Store) is unchanged. -/
theorem c1_commit_method :
    ∀ (st : SysState) (u : String) (n : ℕ) (polls : List RegPoll)
      (samples : List (List ℚ × Method)),
      st.camera_available = true →
      regLoop n polls [] = .done samples →
      (∀ s ∈ samples, s.2 = Method.deep_learning ∨ s.2 = Method.feature_based) →
      ((samples = [] → register_user st u n polls = some (false, st)) ∧
       (samples ≠ [] → ∃ st2, register_user st u n polls = some (true, st2) ∧
          ∃ idr, st2.known_faces.lookup u = some idr ∧
            idr.method = (if ∃ s ∈ samples, s.2 = Method.deep_learning
                          then Method.deep_learning else Method.feature_based) ∧
            idr.samples = samples.length)) := by
  intro st u n polls samples hc hreg hwf
  have hcam : ¬ st.camera_available = false := by
    rw [hc]
    exact fun h => Bool.noConfusion h
  constructor
  · intro hnil
    subst hnil
    rw [register_user, if_neg hcam]
    simp only [hreg]
    rfl
  · intro hne
    by_cases hdl : ∃ s ∈ samples, s.2 = Method.deep_learning
    · have hagg := aggregate_dl samples hne hdl
      rw [register_user, if_neg hcam]
      simp only [hreg, hagg]
      refine ⟨_, rfl, ⟨⟨meanVecs ((samples.filter
          (fun s => s.2 == Method.deep_learning)).map (fun s => s.1)),
          Method.deep_learning, samples.length⟩, ?_, ?_, rfl⟩⟩
      · rw [log_verification_known_faces]
        simp [dictSet, List.lookup]
      · simp only [if_pos hdl]
    · have hfb : ∃ s ∈ samples, s.2 = Method.feature_based := by
        obtain ⟨s, hs⟩ := List.exists_mem_of_ne_nil samples hne
        rcases hwf s hs with h | h
        · exact absurd ⟨s, hs, h⟩ hdl
        · exact ⟨s, hs, h⟩
      have hagg := aggregate_fb samples hne hdl hfb
      rw [register_user, if_neg hcam]
      simp only [hreg, hagg]
      refine ⟨_, rfl, ⟨⟨meanVecs ((samples.filter
          (fun s => s.2 == Method.feature_based)).map (fun s => s.1)),
          Method.feature_based, samples.length⟩, ?_, ?_, rfl⟩⟩
      · rw [log_verification_known_faces]
        simp [dictSet, List.lookup]
      · simp only [if_neg hdl]

/-- Counterexample to C1 as stated: three collected samples with methods
embedding, feature-based, feature-based (majority `feature-based`) commit
an Identity tagged `deep_learning`, not the majority method. -/
theorem c1_counterexample :
    regLoop 3 polls1 []
      = .done [([1], .deep_learning), ([2], .feature_based), ([2], .feature_based)] ∧
    ((register_user st0 "alice" 3 polls1).map (fun r =>
        (r.1, (r.2.known_faces.lookup "alice").map Identity.method)))
      = some (true, some Method.deep_learning) ∧
    majorityMethod [Method.deep_learning, Method.feature_based, Method.feature_based]
      = Method.feature_based ∧
    Method.deep_learning ≠ Method.feature_based :=
  ⟨rfl, rfl, rfl, by decide⟩

/-- Witness for C1 (amended): the run of `polls1` commits an Identity for
"alice" tagged with the embedding method and sample count 3. -/
theorem c1_witness :
    ∃ st2, register_user st0 "alice" 3 polls1 = some (true, st2) ∧
      ∃ idr, st2.known_faces.lookup "alice" = some idr ∧
        idr.method = Method.deep_learning ∧ idr.samples = 3 := by
  have h := (c1_commit_method st0 "alice" 3 polls1
      [([1], .deep_learning), ([2], .feature_based), ([2], .feature_based)]
      rfl rfl (by decide)).2 (by decide)
  obtain ⟨st2, h1, idr, h2, h3, h4⟩ := h
  rw [if_pos (by decide)] at h3
  exact ⟨st2, h1, idr, h2, h3, h4⟩

/-- C6 (amended): in enrollment only the FIRST detection of a frame is
considered, and a sample is recorded for it exactly when the crop is
nonempty, both bounding-box dimensions are strictly greater than 100, and
extraction yields an encoding; a box with either dimension `≤ 100`
(including exactly 100×100) records no sample and the loop keeps
collecting. -/
theorem c6_size_gate :
    (∀ (n : ℕ) (poll : RegPoll) (rest : List RegPoll) (d : Detection)
        (ds : List Detection) (samples : List (List ℚ × Method))
        (enc : List ℚ) (m : Method),
        samples.length < n → poll.elapsed ≤ 30 → poll.frame = some (d :: ds) →
        d.cropNonempty = true → 100 < d.w → 100 < d.h →
        d.extract = (some enc, m) →
        regLoop n (poll :: rest) samples
          = regLoop n rest (samples ++ [(enc, m)])) ∧
    (∀ (n : ℕ) (poll : RegPoll) (rest : List RegPoll) (d : Detection)
        (ds : List Detection) (samples : List (List ℚ × Method)),
        samples.length < n → poll.elapsed ≤ 30 → poll.frame = some (d :: ds) →
        (d.w ≤ 100 ∨ d.h ≤ 100) →
        regLoop n (poll :: rest) samples = regLoop n rest samples) :=
  ⟨regLoop_accept, regLoop_reject_size⟩

/-- Counterexample to C6 as stated: a detection of exactly 100×100 "meets
the 100×100 minimum" (it is not smaller in either dimension) yet records no
sample — the gate is strict — while 101×101 records one. -/
theorem c6_counterexample :
    regLoop 1 [⟨0, some [⟨100, 100, true, (some [1], .deep_learning), none⟩]⟩] []
      = .outOfPolls [] ∧
    regLoop 1 [⟨0, some [⟨101, 101, true, (some [1], .deep_learning), none⟩]⟩] []
      = .done [([1], .deep_learning)] := by
  constructor <;> rfl

/-- Witness for C6 (amended) at concrete polls: the 101×101 detection
records its sample, the 100×100 detection records none. -/
theorem c6_witness :
    regLoop 1 [⟨0, some [⟨101, 101, true, (some [1], .deep_learning), none⟩]⟩] []
      = regLoop 1 [] [([1], .deep_learning)] ∧
    regLoop 1 [⟨0, some [⟨100, 100, true, (some [1], .deep_learning), none⟩]⟩] []
      = regLoop 1 [] [] := by
  constructor
  · exact c6_size_gate.1 1 ⟨0, some [⟨101, 101, true, (some [1], .deep_learning), none⟩]⟩
      [] ⟨101, 101, true, (some [1], .deep_learning), none⟩ [] [] [1] .deep_learning
      (by decide) (by decide) rfl rfl (by decide) (by decide) rfl
  · exact c6_size_gate.2 1 ⟨0, some [⟨100, 100, true, (some [1], .deep_learning), none⟩]⟩
      [] ⟨100, 100, true, (some [1], .deep_learning), none⟩ [] []
      (by decide) (by decide) rfl (by decide)

lemma colorFeatures_error (o : ExtractOracle)
    (h : o.colorHist 0 = .error () ∨ o.colorHist 1 = .error ()
      ∨ o.colorHist 2 = .error ()) :
    colorFeatures o = .error () := by
  rcases h with h | h | h
  · rw [colorFeatures, h]
  · rcases h0 : o.colorHist 0 with e0 | v0
    · rw [colorFeatures, h0]
    · rw [colorFeatures, h0, h]
  · rcases h0 : o.colorHist 0 with e0 | v0
    · rw [colorFeatures, h0]
    · rcases h1 : o.colorHist 1 with e1 | v1
      · rw [colorFeatures, h0, h1]
      · rw [colorFeatures, h0, h1, h]

lemma extract_lbp_degenerate (img : GrayImage)
    (h : imgHeight img < 4 ∨ imgWidth img < 4) :
    extract_lbp_features img = zeros 256 := by
  rw [extract_lbp_features, if_pos h]

/-- C3 (amended): inside the fallback extractor only the texture
sub-computation is protected — a texture failure degrades to a zero-filled
256-length segment and extraction continues — while an exception in any
color histogram, in the grayscale conversion, or in the edge histogram
aborts the whole fallback path, which (with the embedding path also empty)
surfaces as the error outcome. -/
theorem c3_subfeature_failures :
    (∀ o : ExtractOracle, o.resizeOk = true →
        (o.colorHist 0 = .error () ∨ o.colorHist 1 = .error ()
          ∨ o.colorHist 2 = .error ()) →
        fallbackExtract o = none) ∧
    (∀ (o : ExtractOracle) (colors : List ℚ), o.resizeOk = true →
        colorFeatures o = .ok colors → o.gray = .error () →
        fallbackExtract o = none) ∧
    (∀ (o : ExtractOracle) (colors : List ℚ) (g : GrayImage),
        o.resizeOk = true → colorFeatures o = .ok colors → o.gray = .ok g →
        o.edgeHist = .error () → fallbackExtract o = none) ∧
    (∀ (o : ExtractOracle) (colors : List ℚ) (g : GrayImage) (raw : List ℚ),
        o.resizeOk = true → colorFeatures o = .ok colors → o.gray = .ok g →
        (imgHeight g < 4 ∨ imgWidth g < 4) → o.edgeHist = .ok raw →
        fallbackExtract o = some (colors ++ zeros 256
          ++ (if 0 < raw.sum then raw.map (fun q => q / raw.sum) else raw))) ∧
    (∀ o : ExtractOracle, o.deepResult = none → fallbackExtract o = none →
        extract_face_encoding false o = (none, .error)) := by
  refine ⟨?_, ?_, ?_, ?_, ?_⟩
  · intro o hr hch
    rw [fallbackExtract, if_neg (by rw [hr]; exact fun h => Bool.noConfusion h)]
    simp only [colorFeatures_error o hch]
  · intro o colors hr hcf hg
    rw [fallbackExtract, if_neg (by rw [hr]; exact fun h => Bool.noConfusion h)]
    simp only [hcf, hg]
  · intro o colors g hr hcf hg he
    rw [fallbackExtract, if_neg (by rw [hr]; exact fun h => Bool.noConfusion h)]
    simp only [hcf, hg, he]
  · intro o colors g raw hr hcf hg hdeg he
    rw [fallbackExtract, if_neg (by rw [hr]; exact fun h => Bool.noConfusion h)]
    simp only [hcf, hg, he, extract_lbp_degenerate g hdeg]
  · intro o hd hf
    rw [extract_face_encoding]
    simp only [hd, hf]
    rfl

/-- Counterexample to C3 as stated: with only the channel-0 color histogram
raising (the other channels and the edge histogram would succeed), the
whole extraction returns the error outcome — the failed sub-histogram is
not replaced by a zero-filled segment and no feature-based encoding is
produced. -/
theorem c3_counterexample :
    extract_face_encoding false oracle3 = (none, Method.error) ∧
    oracle3.colorHist 0 = .error () ∧
    oracle3.colorHist 1 = .ok (some (zeros 32)) ∧
    oracle3.edgeHist = .ok (zeros 20) :=
  ⟨rfl, rfl, rfl, rfl⟩

/-- Witness for C3 (amended): the failing channel-0 histogram of `oracle3`
aborts the fallback path, while the degenerate grayscale image of
`oracle3b` only zeroes the texture segment and the extraction completes. -/
theorem c3_witness :
    fallbackExtract oracle3 = none ∧
    fallbackExtract oracle3b
      = some ((zeros 32 ++ zeros 32 ++ zeros 32) ++ zeros 256 ++ zeros 20) := by
  constructor
  · exact c3_subfeature_failures.1 oracle3 rfl (Or.inl rfl)
  · have h := c3_subfeature_failures.2.2.2.1 oracle3b
      (zeros 32 ++ zeros 32 ++ zeros 32) [] (zeros 20)
      rfl rfl rfl (Or.inl (by decide)) rfl
    rw [h]
    have hz : ¬ (0 : ℚ) < (zeros 20).sum := by
      rw [show (zeros 20).sum = 0 from by simp [zeros]]
      exact lt_irrefl 0
    rw [if_neg hz]

/-- C8 (amended): at the program's parameters `radius=2, points=16` the
texture descriptor computes, for every interior pixel, the 16-point code
of the source text — bit `k` set when the pixel at the truncated
coordinates `int(j + 2*cos(2*pi*k/16))`, `int(i - 2*sin(2*pi*k/16))`
(floor, not nearest-pixel rounding) has intensity `>=` the center — codes
are stored modulo 256; for images with both dimensions above `2*radius`
the 256-bin histogram is normalized to sum exactly 1, and degenerate
dimensions yield the zero vector of length 256. -/
theorem c8_texture_descriptor :
    (∀ (img : GrayImage) (i j : ℕ), 2 ≤ i → 2 ≤ j →
        lbpCodeReal img i j = lbpCode img i j) ∧
    (∀ (img : GrayImage) (i j : ℕ), lbpCode img i j < 256) ∧
    (∀ img : GrayImage, 4 < imgHeight img → 4 < imgWidth img →
        (extract_lbp_features img).length = 256
          ∧ (extract_lbp_features img).sum = 1) ∧
    (∀ img : GrayImage, imgHeight img < 4 ∨ imgWidth img < 4 →
        extract_lbp_features img = zeros 256) := by
  refine ⟨lbpCodeReal_eq_lbpCode, lbpCode_lt_256, ?_, extract_lbp_degenerate⟩
  intro img hh hw
  have hcond : ¬ (imgHeight img < 4 ∨ imgWidth img < 4) := by omega
  have hclen : (lbpInterior img).length
      = (imgHeight img - 4) * (imgWidth img - 4) := lbpInterior_length img
  have hcpos : 0 < (lbpInterior img).length := by
    rw [hclen]
    have : 0 < imgHeight img - 4 := by omega
    have : 0 < imgWidth img - 4 := by omega
    positivity
  have hsum : ((List.range 256).map
      (fun v => ((lbpInterior img).count v : ℚ))).sum
      = ((lbpInterior img).length : ℚ) := by
    rw [sum_map_range]
    exact sum_count_range (lbpInterior img) 256 (lbpInterior_mem_lt img)
  have hspos : (0 : ℚ) < ((List.range 256).map
      (fun v => ((lbpInterior img).count v : ℚ))).sum := by
    rw [hsum]
    exact_mod_cast hcpos
  rw [extract_lbp_features, if_neg hcond]
  simp only []
  rw [if_pos hspos]
  constructor
  · rw [List.length_map, List.length_map, List.length_range]
  · rw [sum_map_div, hsum]
    exact div_self (Nat.cast_ne_zero.mpr hcpos.ne')

/-- Counterexample to C8 as stated: on `img5` the source's truncating
sampling and the spec's nearest-pixel sampling select different neighbours
for the bright pixel, producing codes 2 and 4 respectively, so the two
normalized histograms differ. -/
theorem c8_counterexample :
    extract_lbp_features img5 ≠ lbpFeaturesNearest img5 := by
  have hsum2 : ((List.range 256).map
      (fun v => (([2] : List ℕ).count v : ℚ))).sum = 1 := by
    rw [sum_map_range]
    have h := sum_count_range [2] 256 (by intro c hc; rw [List.mem_singleton] at hc; omega)
    simpa using h
  have hsum4 : ((List.range 256).map
      (fun v => (([4] : List ℕ).count v : ℚ))).sum = 1 := by
    rw [sum_map_range]
    have h := sum_count_range [4] 256 (by intro c hc; rw [List.mem_singleton] at hc; omega)
    simpa using h
  have ha : extract_lbp_features img5
      = (List.range 256).map (fun v => (([2] : List ℕ).count v : ℚ)) := by
    rw [extract_lbp_features, if_neg (by decide)]
    simp only [show lbpInterior img5 = [2] from rfl]
    rw [hsum2, if_pos (by norm_num)]
    simp [div_one]
  have hb : lbpFeaturesNearest img5
      = (List.range 256).map (fun v => (([4] : List ℕ).count v : ℚ)) := by
    rw [lbpFeaturesNearest, if_neg (by decide)]
    simp only [show (List.range (imgHeight img5 - 4)).flatMap (fun a =>
      (List.range (imgWidth img5 - 4)).map
        (fun b => lbpCodeNearest img5 (a + 2) (b + 2))) = [4] from rfl]
    rw [hsum4, if_pos (by norm_num)]
    simp [div_one]
  intro h
  have h2 : (extract_lbp_features img5).getD 2 0
      = (lbpFeaturesNearest img5).getD 2 0 := congrArg (fun l => l.getD 2 0) h
  rw [ha, hb, getD_range_map _ 256 2 (by norm_num),
    getD_range_map _ 256 2 (by norm_num)] at h2
  simp only [List.count_singleton] at h2
  exact absurd h2 (by norm_num)

/-- Witness for C8 (amended) at `img5`: the real-trigonometry code equals
the table-driven executable code at the interior pixel, and the descriptor
of the 5x5 image is a 256-bin histogram summing to 1. -/
theorem c8_witness :
    lbpCodeReal img5 2 2 = lbpCode img5 2 2 ∧
    (extract_lbp_features img5).length = 256 ∧
    (extract_lbp_features img5).sum = 1 := by
  refine ⟨c8_texture_descriptor.1 img5 2 2 (by norm_num) (by norm_num), ?_, ?_⟩
  · exact (c8_texture_descriptor.2.2.1 img5 (by decide) (by decide)).1
  · exact (c8_texture_descriptor.2.2.1 img5 (by decide) (by decide)).2

/-- C9: appending an audit event persists a snapshot exactly when the new
total length is a multiple of 10 (every 10th append), the snapshot is the
suffix of the most recent at most 1000 events, and no snapshot ever
exceeds 1000 events. -/
theorem c9_audit_retention :
    ∀ (st : SysState) (e : AuditEvent),
      (log_verification st e).verification_logs = st.verification_logs ++ [e] ∧
      (log_verification st e).saved_logs
        = (if (st.verification_logs ++ [e]).length % 10 = 0
           then some (lastN 1000 (st.verification_logs ++ [e]))
           else st.saved_logs) ∧
      (∀ l : List AuditEvent, (lastN 1000 l).length ≤ 1000) ∧
      (∀ l : List AuditEvent, lastN 1000 l <:+ l) := by
  intro st e
  refine ⟨log_verification_logs st e, ?_, ?_, ?_⟩
  · by_cases h : (st.verification_logs ++ [e]).length % 10 = 0
    · simp only [log_verification, save_logs]
      rw [if_pos h, if_pos h]
    · simp only [log_verification, save_logs]
      rw [if_neg h, if_neg h]
  · intro l
    rw [lastN, List.length_drop]
    omega
  · intro l
    exact List.drop_suffix _ _

end FaceVerif
